import Mathlib

/-!
# Verification of the upscaledb on-disk blob subsystem

A shallow embedding of `src/3blob_manager/blob_manager_disk.cc` and
`src/2device/device_disk.h`.  The database file is modelled as a flat byte
store `Nat → Nat`; pages are windows into that store, so `write_chunks` /
`copy_chunk` (which walk page boundaries but always copy to/from the file
offset equal to the running `address`) become consecutive byte writes/reads.
`PBlobPageHeader` is accessed by the source only through its typed
getters/setters (`get_num_pages`, `get_freelist_offset`, ...), so it is
modelled as a structured value attached to its page address.
Unsigned 32-bit arithmetic from the source is embedded with explicit
`% 2^32` reductions.
-/

namespace Upscaledb

/-- Truncation to an unsigned 32-bit value, the `(uint32_t)` casts and
implicit wrap-around of `uint32_t` arithmetic in the source. -/
def u32 (n : Nat) : Nat := n % 4294967296

/-- Unsigned 32-bit subtraction `a - b` (wraps modulo `2^32`), as performed
by C on `uint32_t` operands.  Faithful whenever `b < 2^32`. -/
def u32sub (a b : Nat) : Nat := (a + 4294967296 - b % 4294967296) % 4294967296

theorem u32_eq_of_lt {n : Nat} (h : n < 4294967296) : u32 n = n :=
  Nat.mod_eq_of_lt h

theorem u32sub_eq_of_le {a b : Nat} (hb : b ≤ a) (ha : a < 4294967296) :
    u32sub a b = a - b := by
  unfold u32sub
  have hb' : b < 4294967296 := Nat.lt_of_le_of_lt hb ha
  rw [Nat.mod_eq_of_lt hb']
  have h1 : a + 4294967296 - b = (a - b) + 4294967296 := by omega
  rw [h1, Nat.add_mod_right, Nat.mod_eq_of_lt (by omega)]

/-! ## The flat byte store -/

/-- Write the bytes of `l` at consecutive addresses starting at `a`.
This is the net effect of one `memcpy` performed by `write_chunks`: the
source walks page boundaries, but each byte of a chunk lands at the file
offset equal to the running `address`. -/
def writeList (f : Nat → Nat) (a : Nat) : List Nat → (Nat → Nat)
  | [] => f
  | x :: xs => writeList (Function.update f a x) (a + 1) xs

/-- Read `n` consecutive bytes starting at address `a` (the net effect of
`copy_chunk` / a pointer into the mapped region). -/
def readBytes (f : Nat → Nat) (a n : Nat) : List Nat :=
  (List.range n).map (fun i => f (a + i))

theorem writeList_apply_out_lt (f : Nat → Nat) (l : List Nat) (a b : Nat)
    (h : b < a) : writeList f a l b = f b := by
  induction l generalizing f a with
  | nil => rfl
  | cons x xs ih =>
      simp only [writeList]
      rw [ih _ _ (by omega), Function.update_noteq (by omega)]

theorem writeList_apply_out_ge (f : Nat → Nat) (l : List Nat) (a b : Nat)
    (h : a + l.length ≤ b) : writeList f a l b = f b := by
  induction l generalizing f a with
  | nil => rfl
  | cons x xs ih =>
      simp only [writeList, List.length_cons] at *
      rw [ih _ _ (by omega), Function.update_noteq (by omega)]

theorem writeList_apply_in (f : Nat → Nat) (l : List Nat) (a j : Nat)
    (h : j < l.length) : writeList f a l (a + j) = l.get ⟨j, h⟩ := by
  induction l generalizing f a j with
  | nil => simp at h
  | cons x xs ih =>
      cases j with
      | zero =>
          simp only [writeList]
          rw [writeList_apply_out_lt _ _ _ _ (by omega)]
          simp [Function.update]
      | succ j' =>
          simp only [writeList]
          have : a + (j' + 1) = (a + 1) + j' := by omega
          rw [this, ih]
          · simp
          · simpa using Nat.lt_of_succ_lt_succ h

theorem readBytes_length (f : Nat → Nat) (a n : Nat) :
    (readBytes f a n).length = n := by
  simp [readBytes]

theorem readBytes_congr {f g : Nat → Nat} (a n : Nat)
    (h : ∀ i, i < n → f (a + i) = g (a + i)) :
    readBytes f a n = readBytes g a n := by
  simp only [readBytes]
  apply List.map_congr_left
  intro i hi
  exact h i (List.mem_range.mp hi)

/-- Reading back a region that covers part of a freshly written list. -/
theorem readBytes_writeList_extract (f : Nat → Nat) (l : List Nat)
    (a i m : Nat) (h : i + m ≤ l.length) :
    readBytes (writeList f a l) (a + i) m = (l.drop i).take m := by
  apply List.ext_getElem
  · simp [readBytes_length]; omega
  · intro j h1 h2
    have hj : j < m := by simpa [readBytes_length] using h1
    have hjl : i + j < l.length := by omega
    simp only [readBytes, List.getElem_map, List.getElem_range]
    have : a + i + j = a + (i + j) := by omega
    rw [this, writeList_apply_in f l a (i + j) hjl]
    simp [List.getElem_drop, List.getElem_take, List.get_eq_getElem]

theorem readBytes_writeList_self (f : Nat → Nat) (l : List Nat) (a : Nat) :
    readBytes (writeList f a l) a l.length = l := by
  have := readBytes_writeList_extract f l a 0 l.length (by omega)
  simpa using this

/-- A write at or above `a + n` does not disturb a read of `[a, a+n)`. -/
theorem readBytes_writeList_above (f : Nat → Nat) (l : List Nat)
    (a n b : Nat) (h : a + n ≤ b) :
    readBytes (writeList f b l) a n = readBytes f a n := by
  apply readBytes_congr
  intro i hi
  exact writeList_apply_out_lt f l b (a + i) (by omega)

/-- A write strictly below `a` does not disturb a read of `[a, a+n)`. -/
theorem readBytes_writeList_below (f : Nat → Nat) (l : List Nat)
    (a n b : Nat) (h : b + l.length ≤ a) :
    readBytes (writeList f b l) a n = readBytes f a n := by
  apply readBytes_congr
  intro i hi
  exact writeList_apply_out_ge f l b (a + i) (by omega)

/-! ## Little-endian integer encoding (the in-file layout of `PBlobHeader`) -/

/-- `k`-byte little-endian encoding of `n` (natural struct layout of the
unsigned header fields). -/
def encLE : Nat → Nat → List Nat
  | _, 0 => []
  | n, k + 1 => n % 256 :: encLE (n / 256) k

/-- Decode a little-endian byte sequence. -/
def decLE : List Nat → Nat
  | [] => 0
  | b :: rest => b + 256 * decLE rest

theorem encLE_length (n k : Nat) : (encLE n k).length = k := by
  induction k generalizing n with
  | zero => rfl
  | succ k ih => simp [encLE, ih]

theorem decLE_encLE (n k : Nat) : decLE (encLE n k) = n % 256 ^ k := by
  induction k generalizing n with
  | zero => simp [encLE, decLE, Nat.mod_one]
  | succ k ih =>
      simp only [encLE, decLE, ih]
      rw [pow_succ', Nat.mod_mul]

/-! ## Data model -/

/-- The error kinds thrown by the embedded operations (`Exception(...)` in
the source: `HAM_BLOB_NOT_FOUND`, `HAM_INV_PARAMETER`,
`HAM_INTEGRITY_VIOLATED`, `UPS_LIMITS_REACHED`). -/
inductive Err where
  | BlobNotFound
  | InvParameter
  | IntegrityViolated
  | LimitsReached
  deriving DecidableEq, Repr

/-- The pluggable record compressor (`2compressor/compressor.h` interface,
declared outside `src/`).  Modelled from the spec: `compress` maps the
input bytes to the compressed bytes, `decompress` takes the compressed
bytes and the expected output length. -/
structure Compressor where
  compress : List Nat → List Nat
  decompress : List Nat → Nat → List Nat

/-- Environment/device configuration consumed by the blob manager:
`page_size_bytes`, the CRC32 flag, the optional record compressor, the
device's mmap window size (for `is_mapped`), and the CRC hash function.
`kPageOverhead` is `Page::kSizeofPersistentHeader + sizeof(PBlobPageHeader)`;
its numeric value lives in headers outside `src/`, so it is kept abstract
as a configuration field, and so is `kFreelistLength`, the fixed capacity
of the per-page freelist array.  `crc_fn` models `MurmurHash3_x86_32` (third-party
code, not under `src/`): an arbitrary deterministic hash of the byte
sequence. -/
structure Config where
  page_size : Nat
  kPageOverhead : Nat
  kFreelistLength : Nat
  crc32_enabled : Bool
  compressor : Option Compressor
  mapped_size : Nat
  crc_fn : List Nat → Nat

/-- Truncation to an unsigned 64-bit value (`uint64_t`). -/
def u64 (n : Nat) : Nat := n % 18446744073709551616

/-- Unsigned 64-bit subtraction (wraps modulo `2^64`). -/
def u64sub (a b : Nat) : Nat :=
  (a + 18446744073709551616 - b % 18446744073709551616) % 18446744073709551616

/-- `sizeof(PBlobHeader)`: 8 (self) + 8 (size) + 4 (alloc_size) + 4 (flags)
bytes.  Modelled from the spec: the struct itself is declared in
`3blob_manager/blob_manager.h`, which is not under `src/`; the spec gives
the four fields and their widths. -/
def blobHeaderSize : Nat := 24

/-- `kIsCompressed` flag bit in `PBlobHeader::flags` (bit 0 per the spec). -/
def kIsCompressed : Nat := 1

/-- The in-memory `PBlobHeader`: blob-id (`self`), logical payload size,
physical allocated size and flags. -/
structure PBlobHeader where
  self : Nat
  size : Nat
  alloc_size : Nat
  flags : Nat
  deriving DecidableEq, Repr

/-- On-disk little-endian image of a `PBlobHeader`
(modelled from the spec: fixed size, little-endian, natural alignment). -/
def encodeHeader (h : PBlobHeader) : List Nat :=
  encLE h.self 8 ++ encLE h.size 8 ++ encLE h.alloc_size 4 ++ encLE h.flags 4

theorem encodeHeader_length (h : PBlobHeader) :
    (encodeHeader h).length = blobHeaderSize := by
  simp [encodeHeader, encLE_length, blobHeaderSize]

/-- Decode the `PBlobHeader` stored at file offset `a` (what the casts
`(PBlobHeader *)read_chunk(...)` observe). -/
def readHeader (f : Nat → Nat) (a : Nat) : PBlobHeader :=
  { self := decLE (readBytes f a 8) % 2 ^ 64
    size := decLE (readBytes f (a + 8) 8) % 2 ^ 64
    alloc_size := decLE (readBytes f (a + 16) 4) % 2 ^ 32
    flags := decLE (readBytes f (a + 20) 4) % 2 ^ 32 }

/-- One `PBlobPageHeader`: page count of the run, free-byte counter and the
fixed-capacity freelist of `(offset, size)` slots.  The source manipulates
this struct only through its typed getters/setters, so it is embedded
structurally; `get_freelist_entries` is the length of `freelist`. -/
structure PBlobPageHeader where
  num_pages : Nat
  free_bytes : Nat
  freelist : List (Nat × Nat)
  deriving DecidableEq, Repr

namespace PBlobPageHeader

def get_freelist_offset (h : PBlobPageHeader) (i : Nat) : Nat :=
  (h.freelist.getD i (0, 0)).1

def get_freelist_size (h : PBlobPageHeader) (i : Nat) : Nat :=
  (h.freelist.getD i (0, 0)).2

def set_freelist_offset (h : PBlobPageHeader) (i v : Nat) : PBlobPageHeader :=
  { h with freelist := h.freelist.set i (u32 v, (h.freelist.getD i (0, 0)).2) }

def set_freelist_size (h : PBlobPageHeader) (i v : Nat) : PBlobPageHeader :=
  { h with freelist := h.freelist.set i ((h.freelist.getD i (0, 0)).1, u32 v) }

end PBlobPageHeader

/-- Models `PBlobPageHeader::initialize()` and the state of a freshly
allocated page-run header: everything zeroed, with the fixed freelist
capacity (modelled from the spec: "reset the header (zeroed)", "fixed-capacity
array"). -/
def freshHeader (cfg : Config) : PBlobPageHeader :=
  { num_pages := 0
    free_bytes := 0
    freelist := List.replicate cfg.kFreelistLength (0, 0) }

/-- Mutable state threaded through the blob-manager operations:
the file byte image, the structured `PBlobPageHeader` of each page-run
start address, the page manager's `last_blob_page` hint, the next fresh
address handed out by `alloc_multiple_blob_pages` (modelled from the spec:
the PageManager allocates contiguous fresh page runs; its implementation is
not under `src/`), and the runs returned via `PageManager::del`. -/
structure BMState where
  file : Nat → Nat
  pageHeaders : Nat → PBlobPageHeader
  last_blob_page : Option Nat
  next_page_address : Nat
  deleted_runs : List (Nat × Nat)

/-- A `ham_record_t` as the blob manager sees it: `data` points at
`size` bytes (for non-partial operations) or `partial_size` bytes (for
partial writes), plus the `HAM_RECORD_USER_ALLOC` bit of `record->flags`.
All three counters are `uint32_t`. -/
structure RecordT where
  data : List Nat
  size : Nat
  partial_offset : Nat
  partial_size : Nat
  userAlloc : Bool

/-- The operation flag bits consulted by the blob manager:
`HAM_PARTIAL`, `kDisableCompression`, `HAM_FORCE_DEEP_COPY`. -/
structure OpFlags where
  partialFlag : Bool
  disableCompression : Bool
  forceDeepCopy : Bool

/-- What `do_read` leaves in the caller's `ham_record_t`: final
`record->size`, the delivered bytes behind `record->data` (`none` models
the null pointer of the empty-blob path), and the final
`record->partial_size` (which `do_read` may clamp). -/
structure ReadOut where
  size : Nat
  data : Option (List Nat)
  partial_size : Nat

/-- Header round-trip through the byte store: writing the encoded header at
`a` and decoding at `a` recovers the fields modulo their storage width. -/
theorem readHeader_writeList_encodeHeader (f : Nat → Nat) (h : PBlobHeader)
    (a : Nat) :
    readHeader (writeList f a (encodeHeader h)) a =
      { self := h.self % 2 ^ 64
        size := h.size % 2 ^ 64
        alloc_size := h.alloc_size % 2 ^ 32
        flags := h.flags % 2 ^ 32 } := by
  have hlen : (encodeHeader h).length = 24 := encodeHeader_length h
  have h0 : readBytes (writeList f a (encodeHeader h)) (a + 0) 8 =
      ((encodeHeader h).drop 0).take 8 :=
    readBytes_writeList_extract f _ a 0 8 (by omega)
  have h8 : readBytes (writeList f a (encodeHeader h)) (a + 8) 8 =
      ((encodeHeader h).drop 8).take 8 :=
    readBytes_writeList_extract f _ a 8 8 (by omega)
  have h16 : readBytes (writeList f a (encodeHeader h)) (a + 16) 4 =
      ((encodeHeader h).drop 16).take 4 :=
    readBytes_writeList_extract f _ a 16 4 (by omega)
  have h20 : readBytes (writeList f a (encodeHeader h)) (a + 20) 4 =
      ((encodeHeader h).drop 20).take 4 :=
    readBytes_writeList_extract f _ a 20 4 (by omega)
  simp only [Nat.add_zero] at h0
  have e1 : ((encodeHeader h).drop 0).take 8 = encLE h.self 8 := by
    simp [encodeHeader, List.take_append_eq_append_take, encLE_length]
  have e2 : ((encodeHeader h).drop 8).take 8 = encLE h.size 8 := by
    simp [encodeHeader, List.drop_append_eq_append_drop, encLE_length,
      List.take_append_eq_append_take]
  have e3 : ((encodeHeader h).drop 16).take 4 = encLE h.alloc_size 4 := by
    simp [encodeHeader, List.drop_append_eq_append_drop, encLE_length,
      List.take_append_eq_append_take]
  have e4 : ((encodeHeader h).drop 20).take 4 = encLE h.flags 4 := by
    simp [encodeHeader, List.drop_append_eq_append_drop, encLE_length,
      List.take_append_eq_append_take, List.drop_eq_nil_of_le,
      List.take_of_length_le]
  simp only [readHeader, h0, h8, h16, h20, e1, e2, e3, e4, decLE_encLE]
  norm_num

/-! ## Freelist operations (`DiskBlobManager::alloc_from_freelist`,
`DiskBlobManager::add_to_freelist`, `DiskBlobManager::check_integrity`) -/

/-- The scan loop of `alloc_from_freelist`: first slot with an exact size
match is taken and cleared; first slot with a strictly larger size is
shrunk from the front (`offset += size; size -= size`); the stored offset
is the `(uint32_t)` cast of `*poffset + size`. -/
def afl_loop (size : Nat) : List (Nat × Nat) → Option (Nat × List (Nat × Nat))
  | [] => none
  | (o, sz) :: rest =>
      if sz = size then some (o, (0, 0) :: rest)
      else if sz > size then some (o, (u32 (o + size), sz - size) :: rest)
      else (afl_loop size rest).map (fun p => (p.1, (o, sz) :: p.2))

/-- `DiskBlobManager::alloc_from_freelist`.  Returns `none` for the
`return (false)` paths (multi-page run, or no gap large enough); on success
returns the page-relative offset and the updated header. -/
def alloc_from_freelist (header : PBlobPageHeader) (size : Nat) :
    Option (Nat × PBlobPageHeader) :=
  if header.num_pages > 1 then none
  else (afl_loop size header.freelist).map
    (fun p => (p.1, { header with freelist := p.2 }))

/-- First pass of `add_to_freelist`: coalesce the new region with the first
slot it abuts (new region's end at a slot's start, or a slot's end at the
new region's start); the `uint32_t` sums wrap modulo `2^32`. -/
def atf_coalesce (offset size : Nat) :
    List (Nat × Nat) → Option (List (Nat × Nat))
  | [] => none
  | (o, sz) :: rest =>
      if u32 (offset + size) = o then some ((offset, u32 (sz + size)) :: rest)
      else if u32 (o + sz) = offset then some ((o, u32 (sz + size)) :: rest)
      else (atf_coalesce offset size rest).map (fun l => (o, sz) :: l)

/-- The `smallest` index tracked by the second loop of `add_to_freelist`:
starts at 0 and moves to `i` only on a strictly smaller slot size. -/
def smallestIdx (l : List (Nat × Nat)) : Nat :=
  (List.range l.length).foldl
    (fun s i => if (l.getD i (0, 0)).2 < (l.getD s (0, 0)).2 then i else s) 0

/-- Second and third passes of `add_to_freelist`: place into the first
empty slot if one exists; otherwise evict the smallest slot when the new
region is strictly larger than it (smaller gaps are intentionally leaked). -/
def atf_place (offset size : Nat) (l : List (Nat × Nat)) : List (Nat × Nat) :=
  match l.findIdx? (fun e => e.2 = 0) with
  | some i => l.set i (offset, size)
  | none =>
      let s := smallestIdx l
      if size > (l.getD s (0, 0)).2 then l.set s (offset, size) else l

/-- `DiskBlobManager::add_to_freelist` (release build: the
`ham_assert(check_integrity(..))` guards are compiled out). -/
def add_to_freelist (header : PBlobPageHeader) (offset size : Nat) :
    PBlobPageHeader :=
  if header.num_pages > 1 then header
  else
    match atf_coalesce offset size header.freelist with
    | some fl => { header with freelist := fl }
    | none => { header with freelist := atf_place offset size header.freelist }

/-- Lexicographic order on `(offset, size)` pairs: what
`std::sort(ranges.begin(), ranges.end())` sorts by. -/
def pairLe (x y : Nat × Nat) : Bool :=
  x.1 < y.1 || (x.1 = y.1 && x.2 ≤ y.2)

def insertSorted (x : Nat × Nat) : List (Nat × Nat) → List (Nat × Nat)
  | [] => [x]
  | y :: ys => if pairLe x y then x :: y :: ys else y :: insertSorted x ys

/-- Insertion sort by `pairLe`; lexicographic pair order is total and
antisymmetric, so this yields the same list as `std::sort` on pairs. -/
def sortRanges : List (Nat × Nat) → List (Nat × Nat)
  | [] => []
  | x :: xs => insertSorted x (sortRanges xs)

/-- The final loop of `check_integrity` over the sorted ranges with
`i < ranges.size() - 1`: each range except the last is checked against the
page bound (`return false`) and against the start of its successor
(overlap throws `HAM_INTEGRITY_VIOLATED`). -/
def ci_loop (bound : Nat) : List (Nat × Nat) → Except Err Bool
  | [] => .ok true
  | [_] => .ok true
  | x :: y :: rest =>
      if u32 (x.1 + x.2) > bound then .ok false
      else if u32 (x.1 + x.2) > y.1 then .error .IntegrityViolated
      else ci_loop bound (y :: rest)

/-- The slot-collection loop of `check_integrity`: the non-empty slots
among the first `count - 1` freelist entries, in index order.  The source
loop runs `i < count - 1` and so never inspects the last freelist slot
(spec §9 open question (b)). -/
def ci_slots (header : PBlobPageHeader) : List (Nat × Nat) :=
  (header.freelist.take (header.freelist.length - 1)).filter
    (fun e => e.2 ≠ 0)

/-- `DiskBlobManager::check_integrity`.  Note two quirks embedded exactly
as in the source: the slot-collection loop skips the last freelist slot
(see `ci_slots`), and the sorted-ranges loop runs `i < ranges.size() - 1`
and so never bound-checks the range with the largest offset.  All
`uint32_t` arithmetic wraps modulo `2^32`, and the accumulated
`total_sizes` counter is a `uint32_t`. -/
def check_integrity (cfg : Config) (header : PBlobPageHeader) :
    Except Err Bool :=
  if u32 (header.free_bytes + cfg.kPageOverhead) >
      u32 (cfg.page_size * header.num_pages) then .ok false
  else if header.num_pages > 1 then .ok true
  else if u32 (((ci_slots header).map (fun e => e.2)).sum)
      > header.free_bytes then .ok false
  else ci_loop (u32 (cfg.page_size * header.num_pages))
    (sortRanges (ci_slots header))

/-! ## The blob manager operations -/

/-- `DiskDevice::is_mapped`: `file_offset + size <= mapped_size`. -/
def is_mapped (cfg : Config) (file_offset size : Nat) : Bool :=
  file_offset + size ≤ cfg.mapped_size

/-- The compression step of `do_allocate`: with a configured compressor
and `kDisableCompression` clear, the compressed bytes are adopted only
when strictly shorter; the pair is `(record_data, record_size)`. -/
def allocCompress (cfg : Config) (record : RecordT) (flags : OpFlags) :
    List Nat × Nat :=
  match cfg.compressor with
  | some c =>
      if flags.disableCompression then (record.data, record.size)
      else
        let cd := c.compress (record.data.take record.size)
        if cd.length < record.size then (cd, cd.length)
        else (record.data, record.size)
  | none => (record.data, record.size)

/-- The placement step of `do_allocate`: try the last blob page's
freelist (a successful carve mutates that page's header in place even if
the resulting address is the `!address` corner), else allocate and
initialize a fresh page run.  Returns the state so far, the page-run
start address, the blob address, and the run header as currently in
memory.  `crc` is the value stored in `freelist[0].offset` of a fresh
multi-page run when CRC32 is enabled. -/
def allocPlace (cfg : Config) (s : BMState) (alloc_size crc : Nat) :
    BMState × Nat × Nat × PBlobPageHeader :=
  let step1 : BMState × Nat × Nat :=
    match s.last_blob_page with
    | some pg =>
        match alloc_from_freelist (s.pageHeaders pg) alloc_size with
        | some p =>
            ({ s with pageHeaders := Function.update s.pageHeaders pg p.2 },
              pg, p.1 + pg)
        | none => (s, 0, 0)
    | none => (s, 0, 0)
  let s1 := step1.1
  -- `if (!address)`: allocate a fresh page run
  if step1.2.2 ≠ 0 then
    (s1, step1.2.1, step1.2.2, s1.pageHeaders step1.2.1)
  else
    let required_size := u32 (alloc_size + cfg.kPageOverhead)
    let np0 := required_size / cfg.page_size
    let num_pages := if np0 * cfg.page_size < required_size then np0 + 1
      else np0
    let pg := s1.next_page_address
    let h1 : PBlobPageHeader :=
      { num_pages := num_pages
        free_bytes := u32sub (u32 (num_pages * cfg.page_size))
          cfg.kPageOverhead
        freelist := List.replicate cfg.kFreelistLength (0, 0) }
    -- move the remaining space of a single-page run to the freelist
    let h2 := if num_pages = 1 ∧ u32 (cfg.kPageOverhead + alloc_size) > 0
          ∧ u32sub h1.free_bytes alloc_size > 0 then
        (h1.set_freelist_offset 0
            (cfg.kPageOverhead + alloc_size)).set_freelist_size 0
          (u32sub h1.free_bytes alloc_size)
      else h1
    -- multi-page blobs store their CRC in the first freelist offset
    let h3 := if num_pages > 1 ∧ cfg.crc32_enabled then
        h2.set_freelist_offset 0 crc
      else h2
    ({ s1 with next_page_address := pg + num_pages * cfg.page_size },
      pg, pg + cfg.kPageOverhead, h3)

/-- The write step of `do_allocate`: header and payload, with zero-filled
leading and trailing gaps for partial writes (the zero fills are issued in
page-sized chunks by the source; in the flat byte store their net effect
is one consecutive run of zero bytes). -/
def allocWrite (cfg : Config) (f : Nat → Nat) (address : Nat)
    (record : RecordT) (flags : OpFlags) (bh : PBlobHeader)
    (record_data : List Nat) (record_size : Nat) : Nat → Nat :=
  let w1 : (Nat → Nat) × Nat :=
    if flags.partialFlag ∧ record.partial_offset > 0 then
      let f1 := writeList f address (encodeHeader bh)
      let f2 := writeList f1 (address + blobHeaderSize)
        (List.replicate record.partial_offset 0)
      let f3 := writeList f2
        (address + blobHeaderSize + record.partial_offset)
        (record.data.take record.partial_size)
      (f3, address + blobHeaderSize + record.partial_offset
        + record.partial_size)
    else
      let payload := record_data.take
        (if flags.partialFlag then record.partial_size else record_size)
      (writeList f address (encodeHeader bh ++ payload),
        address + blobHeaderSize
          + (if flags.partialFlag then record.partial_size else record_size))
  -- zero fill for the trailing gap of a partial write
  if flags.partialFlag
      ∧ u32 (record.partial_offset + record.partial_size) < record.size
    then writeList w1.1 w1.2
      (List.replicate
        (u32sub record.size
          (u32 (record.partial_offset + record.partial_size))) 0)
  else w1.1

/-- `DiskBlobManager::do_allocate`.  Returns the new blob-id and the
updated state.  `alloc_multiple_blob_pages` is modelled from the spec (the
PageManager is outside `src/`): it hands out the next fresh, contiguous,
page-aligned run starting at `next_page_address`. -/
def do_allocate (cfg : Config) (s : BMState) (record : RecordT)
    (flags : OpFlags) : Nat × BMState :=
  -- compression enabled? then try to compress the data
  let comp := allocCompress cfg record flags
  let record_data := comp.1
  let record_size := comp.2
  let original_size := record.size
  let alloc_size := u32 (blobHeaderSize + record_size)
  -- the CRC of a fresh multi-page run: MurmurHash3 over the record bytes,
  -- or 0 for partial writes
  let crcv := if flags.partialFlag then 0
    else cfg.crc_fn (record.data.take record.size)
  let P := allocPlace cfg s alloc_size crcv
  let s2 := P.1
  let pageaddr := P.2.1
  let address := P.2.2.1
  let hdr := P.2.2.2
  -- adjust the "free bytes" counter, update the last-blob-page hint
  let hFinal := { hdr with free_bytes := u32sub hdr.free_bytes alloc_size }
  let lbp := if hFinal.free_bytes ≠ 0 then some pageaddr
    else (none : Option Nat)
  let blob_header : PBlobHeader :=
    { self := address
      size := original_size
      alloc_size := alloc_size
      flags := if original_size ≠ record_size then kIsCompressed else 0 }
  (blob_header.self,
    { file := allocWrite cfg s2.file address record flags blob_header
        record_data record_size
      pageHeaders := Function.update s2.pageHeaders pageaddr hFinal
      last_blob_page := lbp
      next_page_address := s2.next_page_address
      deleted_runs := s2.deleted_runs })

/-- The bytes `do_read` delivers behind `record->data`: the zero-copy
pointer into the mapped region, the decompression output, or the plain
copy, depending on the path taken. -/
def do_read_deliver (cfg : Config) (s : BMState) (blobid : Nat)
    (record : RecordT) (flags : OpFlags) (bh : PBlobHeader)
    (blobsize : Nat) : List Nat :=
  let compressed := bh.flags % 2 ≠ 0
  -- memory-mapped storage and no copy required: return a pointer
  if ¬flags.forceDeepCopy ∧ is_mapped cfg blobid blobsize
      ∧ ¬compressed ∧ ¬record.userAlloc then
    readBytes s.file
      (blobid + blobHeaderSize
        + (if flags.partialFlag then record.partial_offset else 0))
      blobsize
  else if compressed then
    match cfg.compressor with
    | some c =>
        c.decompress
          (readBytes s.file (blobid + blobHeaderSize)
            (u32sub bh.alloc_size blobHeaderSize)) blobsize
    | none => []
  else
    readBytes s.file
      (blobid + blobHeaderSize
        + (if flags.partialFlag then record.partial_offset else 0))
      blobsize

/-- The partial-read clamping of `do_read`: the pair of the effective
`blobsize` and the (possibly clamped) `record->partial_size`; the
`uint32_t` sum `partial_offset + partial_size` wraps modulo `2^32`. -/
def clampPartial (record : RecordT) (flags : OpFlags) (sizeFull : Nat) :
    Nat × Nat :=
  if flags.partialFlag then
    if u32 (record.partial_offset + record.partial_size) > sizeFull then
      (u32sub sizeFull record.partial_offset,
        u32sub sizeFull record.partial_offset)
    else (record.partial_size, record.partial_size)
  else (sizeFull, record.partial_size)

/-- The tail of `do_read` after the clamping: empty-blob early return,
data delivery, and the multi-page CRC verification. -/
def do_read_tail (cfg : Config) (s : BMState) (blobid : Nat)
    (record : RecordT) (flags : OpFlags) (bh : PBlobHeader)
    (sizeFull : Nat) (bp : Nat × Nat) : Except Err ReadOut :=
  -- empty blob?
  if bp.1 = 0 then .ok { size := 0, data := none, partial_size := bp.2 }
  else
    let delivered := do_read_deliver cfg s blobid record flags bh bp.1
    -- multi-page blobs verify their CRC, except for partial reads;
    -- MurmurHash3 is applied to record->size bytes behind record->data
    let ph := s.pageHeaders (blobid - blobid % cfg.page_size)
    let out : ReadOut :=
      { size := sizeFull, data := some delivered, partial_size := bp.2 }
    if ph.num_pages > 1 ∧ cfg.crc32_enabled ∧ ¬flags.partialFlag then
      if ph.get_freelist_offset 0
          ≠ u32 (cfg.crc_fn (delivered.take sizeFull)) then
        .error .IntegrityViolated
      else .ok out
    else .ok out

/-- `DiskBlobManager::do_read` after the passed self-id sanity check. -/
def do_read_checked (cfg : Config) (s : BMState) (blobid : Nat)
    (record : RecordT) (flags : OpFlags) (bh : PBlobHeader) :
    Except Err ReadOut :=
  let sizeFull := u32 bh.size
  if flags.partialFlag ∧ record.partial_offset > sizeFull then
    .error .InvParameter
  else
    do_read_tail cfg s blobid record flags bh sizeFull
      (clampPartial record flags sizeFull)

/-- `DiskBlobManager::do_read`.  Returns the record fields left for the
caller; the state is never mutated by a read. -/
def do_read (cfg : Config) (s : BMState) (blobid : Nat) (record : RecordT)
    (flags : OpFlags) : Except Err ReadOut :=
  let bh := readHeader s.file blobid
  -- sanity check of the self-id
  if bh.self ≠ blobid then .error .BlobNotFound
  else do_read_checked cfg s blobid record flags bh

/-- `DiskBlobManager::do_get_blob_size`. -/
def do_get_blob_size (s : BMState) (blobid : Nat) : Except Err Nat :=
  let bh := readHeader s.file blobid
  if bh.self ≠ blobid then .error .BlobNotFound
  else .ok bh.size

/-- `DiskBlobManager::do_erase` after the passed self-id sanity check:
the state transformation (the source then always succeeds). -/
def do_erase_checked (cfg : Config) (s : BMState) (blobid : Nat)
    (bh : PBlobHeader) : BMState :=
  let pageaddr := blobid - blobid % cfg.page_size
  let h0 := s.pageHeaders pageaddr
  -- update the "free bytes" counter
  let h1 := { h0 with free_bytes := u32 (h0.free_bytes + bh.alloc_size) }
  -- page run completely empty? return it to the page manager
  if h1.free_bytes
      = u32sub (u32 (h1.num_pages * cfg.page_size)) cfg.kPageOverhead then
    { s with
      pageHeaders := Function.update s.pageHeaders pageaddr (freshHeader cfg)
      last_blob_page := none
      deleted_runs := (pageaddr, h1.num_pages) :: s.deleted_runs }
  else
    -- otherwise move the blob to the freelist
    { s with
      pageHeaders := Function.update s.pageHeaders pageaddr
        (add_to_freelist h1 (u32 (blobid - pageaddr)) bh.alloc_size) }

/-- `DiskBlobManager::do_erase`.  The pair carries the outcome and the
state after the call (unchanged when the self-id check throws). -/
def do_erase (cfg : Config) (s : BMState) (blobid : Nat) :
    Except Err Unit × BMState :=
  let bh := readHeader s.file blobid
  if bh.self ≠ blobid then (.error .BlobNotFound, s)
  else (.ok (), do_erase_checked cfg s blobid bh)

/-- The in-place branch of `DiskBlobManager::do_overwrite` (taken when the
proposed `alloc_size` fits in the old blob's allocation): the resulting
state; the returned blob-id is `obh.self`. -/
def do_overwrite_inplace (cfg : Config) (s : BMState) (old_blobid : Nat)
    (record : RecordT) (flags : OpFlags) (obh : PBlobHeader) : BMState :=
    let alloc_size := u32 (blobHeaderSize + record.size)
    let nbh : PBlobHeader :=
      { self := obh.self
        size := record.size
        alloc_size := alloc_size
        flags := 0 }
    let f' :=
      if flags.partialFlag ∧ record.partial_offset ≠ 0 then
        writeList (writeList s.file nbh.self (encodeHeader nbh))
          (nbh.self + blobHeaderSize + record.partial_offset)
          (record.data.take record.partial_size)
      else
        writeList s.file nbh.self
          (encodeHeader nbh ++ record.data.take
            (if flags.partialFlag then record.partial_size else record.size))
    let pageaddr := old_blobid - old_blobid % cfg.page_size
    let h0 := s.pageHeaders pageaddr
    -- move remaining data to the freelist
    let hplus : PBlobPageHeader :=
      { h0 with
        free_bytes := u32 (h0.free_bytes + u32sub obh.alloc_size alloc_size) }
    let h1 :=
      if alloc_size < obh.alloc_size then
        add_to_freelist hplus
          (u32 (u64sub (u32 (u64 (old_blobid + alloc_size))) pageaddr))
          (u32sub obh.alloc_size alloc_size)
      else h0
    -- refresh the CRC of multi-page runs
    let h2 :=
      if h1.num_pages > 1 ∧ cfg.crc32_enabled then
        h1.set_freelist_offset 0
          (if flags.partialFlag then 0
            else cfg.crc_fn (record.data.take record.size))
      else h1
    { s with file := f'
             pageHeaders := Function.update s.pageHeaders pageaddr h2 }

/-- `DiskBlobManager::do_overwrite`. -/
def do_overwrite (cfg : Config) (s : BMState) (old_blobid : Nat)
    (record : RecordT) (flags : OpFlags) : Except Err Nat × BMState :=
  -- the routine ignores compression when sizing the decision
  let alloc_size := u32 (blobHeaderSize + record.size)
  let obh := readHeader s.file old_blobid
  if obh.self ≠ old_blobid then (.error .BlobNotFound, s)
  else if alloc_size ≤ obh.alloc_size then
    -- overwrite in place; the old rid is the new rid
    (.ok obh.self, do_overwrite_inplace cfg s old_blobid record flags obh)
  else
    -- 'overwrite' has become (delete + insert): a throwing erase
    -- propagates, otherwise the new blob-id is returned
    let r1 := do_allocate cfg s record flags
    let r2 := do_erase cfg r1.2 old_blobid
    (r2.1.map (fun _ => r1.1), r2.2)

/-! ## The disk device (`DiskDevice::read_page`) -/

/-- A `Page`'s buffer: no buffer yet, an owned heap allocation, or a
borrow into the device's mmap window (modelled from the spec: the `Page`
class itself lives outside `src/`; `get_data()` is null exactly in the
no-buffer state and `free_buffer` releases an owned buffer). -/
inductive PageBuf where
  | nobuf
  | heap (data : List Nat)
  | mapped (addr : Nat)
  deriving DecidableEq, Repr

/-- The `DiskDevice::State` fields consulted by `read_page`. -/
structure DiskDeviceState where
  mmapptr_nonnull : Bool
  mapped_size : Nat
  file : Nat → Nat

/-- `DiskDevice::read_page`.  If `address < mapped_size` and the mmap
pointer is non-null, any owned buffer is freed and the page borrows into
the mapped region.  Otherwise a heap buffer is allocated only when the
page has none (`page->get_data() == 0`), and `page_size` bytes are pread
into the page's existing data pointer — which, for a page that currently
borrows from the mmap window, is the mapped memory itself, so the page's
buffer state does not change in that case. -/
def read_page (page_size : Nat) (d : DiskDeviceState) (p : PageBuf)
    (address : Nat) : PageBuf :=
  if address < d.mapped_size ∧ d.mmapptr_nonnull then .mapped address
  else
    match p with
    | .mapped a => .mapped a
    | _ => .heap (readBytes d.file address page_size)

/-! ## Concrete example data used by witnesses and counterexamples -/

/-- A small example configuration: 128-byte pages, 32 bytes of page
overhead, freelist capacity 4, CRC and compression off, no mmap window. -/
def cfgEx : Config :=
  { page_size := 128
    kPageOverhead := 32
    kFreelistLength := 4
    crc32_enabled := false
    compressor := none
    mapped_size := 0
    crc_fn := fun _ => 0 }

/-- An empty starting state: zero-filled file, blank page headers, no
last-blob-page hint, fresh pages handed out from address 0. -/
def sEmpty : BMState :=
  { file := fun _ => 0
    pageHeaders := fun _ => ⟨0, 0, []⟩
    last_blob_page := none
    next_page_address := 0
    deleted_runs := [] }

/-- Flags: all clear. -/
def flagsPlain : OpFlags :=
  { partialFlag := false, disableCompression := false, forceDeepCopy := false }

/-- Flags: `HAM_PARTIAL` set. -/
def flagsPart : OpFlags :=
  { partialFlag := true, disableCompression := false, forceDeepCopy := false }

/-! ## The claims -/

/-- After a successful self-id check, no later branch of `do_read` raises
`BlobNotFound`. -/
theorem do_read_checked_ne_bnf (cfg : Config) (s : BMState) (b : Nat)
    (record : RecordT) (flags : OpFlags) (bh : PBlobHeader) :
    do_read_checked cfg s b record flags bh ≠ .error .BlobNotFound := by
  have htail : ∀ sizeFull bp,
      do_read_tail cfg s b record flags bh sizeFull bp
        ≠ .error .BlobNotFound := by
    intro sizeFull bp hcontra
    simp only [do_read_tail] at hcontra
    split_ifs at hcontra <;> simp_all
  intro hcontra
  simp only [do_read_checked] at hcontra
  split_ifs at hcontra
  · simp at hcontra
  · exact htail _ _ hcontra

/-- **C4.** For every blob-id `b`, `do_read`, `do_get_blob_size` and
`do_erase` fail with `BlobNotFound` if and only if the `BlobHeader` stored
at offset `b` has `self ≠ b`; on that failure `do_erase` leaves the state
(page headers, freelists, hint, file) untouched, and `do_read` /
`do_get_blob_size` never mutate state at all (their embedded signatures
are read-only). -/
theorem C4_self_check_iff (cfg : Config) (s : BMState) (b : Nat)
    (record : RecordT) (flags : OpFlags) :
    (do_read cfg s b record flags = .error .BlobNotFound
      ↔ (readHeader s.file b).self ≠ b)
    ∧ (do_get_blob_size s b = .error .BlobNotFound
      ↔ (readHeader s.file b).self ≠ b)
    ∧ ((do_erase cfg s b).1 = .error .BlobNotFound
      ↔ (readHeader s.file b).self ≠ b)
    ∧ ((readHeader s.file b).self ≠ b → (do_erase cfg s b).2 = s) := by
  by_cases h : (readHeader s.file b).self = b
  · refine ⟨?_, ?_, ?_, ?_⟩
    · rw [do_read, if_neg (by simp [h])]
      simp only [iff_false, ne_eq, h, not_true_eq_false]
      exact do_read_checked_ne_bnf cfg s b record flags _
    · rw [do_get_blob_size, if_neg (by simp [h])]
      simp [h]
    · rw [do_erase, if_neg (by simp [h])]
      simp [h]
    · intro hne
      exact absurd h hne
  · refine ⟨?_, ?_, ?_, ?_⟩
    · rw [do_read, if_pos (by simp [h])]
      simp [h]
    · rw [do_get_blob_size, if_pos (by simp [h])]
      simp [h]
    · rw [do_erase, if_pos (by simp [h])]
      simp [h]
    · intro _
      rw [do_erase, if_pos (by simp [h])]

/-- **C4 witness.** The empty state has no valid header at offset 7, so all
three operations fail with `BlobNotFound` and `do_erase` keeps the state. -/
theorem C4_self_check_iff_witness :
    do_read cfgEx sEmpty 7 ⟨[], 0, 0, 0, false⟩ flagsPlain
        = .error .BlobNotFound
      ∧ (do_erase cfgEx sEmpty 7).2 = sEmpty := by
  have h := C4_self_check_iff cfgEx sEmpty 7 ⟨[], 0, 0, 0, false⟩ flagsPlain
  have hne : (readHeader sEmpty.file 7).self ≠ 7 := by decide
  exact ⟨h.1.mpr hne, h.2.2.2 hne⟩

/-- **C8 (corrected).** `DiskDevice::read_page` borrows from the mmap
window exactly when `address < mapped_size` and the mmap pointer is
non-null (any owned buffer is dropped); otherwise, provided the page does
not currently borrow from the mmap window, it ends up owning a heap buffer
holding the `page_size` bytes pread from `address`.  (The claimed guard
`addr + page_size ≤ mapped_size` is not what the source tests.) -/
theorem C8_read_page_paths (page_size : Nat) (d : DiskDeviceState)
    (p : PageBuf) (address : Nat) :
    (address < d.mapped_size ∧ d.mmapptr_nonnull = true →
      read_page page_size d p address = .mapped address)
    ∧ (¬(address < d.mapped_size ∧ d.mmapptr_nonnull = true) →
        (∀ a, p ≠ .mapped a) →
        read_page page_size d p address
          = .heap (readBytes d.file address page_size)) := by
  constructor
  · intro h
    simp [read_page, h.1, h.2]
  · intro h hp
    cases p with
    | nobuf => simp [read_page, h]
    | heap data => simp [read_page, h]
    | mapped a => exact absurd rfl (hp a)

/-- **C8 witness.** With a 4096-byte mmap window, reading the page at
address 8192 takes the pread path into a heap buffer; reading address 0
borrows from the window. -/
theorem C8_read_page_paths_witness :
    read_page 128 ⟨true, 4096, fun _ => 5⟩ .nobuf 8192
        = .heap (readBytes (fun _ => 5) 8192 128)
      ∧ read_page 128 ⟨true, 4096, fun _ => 5⟩ .nobuf 0 = .mapped 0 := by
  refine ⟨?_, ?_⟩
  · exact (C8_read_page_paths 128 ⟨true, 4096, fun _ => 5⟩ .nobuf 8192).2
      (by decide) (by intro a h; cases h)
  · exact (C8_read_page_paths 128 ⟨true, 4096, fun _ => 5⟩ .nobuf 0).1
      (by constructor <;> decide)

/-- **C8 counterexample.** The claim ties the mmap borrow to
`addr + page_size ≤ mapped_size`.  With a 4096-byte mapped window and a
16384-byte page size (the library default), reading address 0 violates
that bound, yet the source's test `address < mapped_size` succeeds and the
page is given a borrowed mmap pointer instead of a pread-filled heap
buffer. -/
theorem C8_read_page_counterexample :
    read_page 16384 ⟨true, 4096, fun _ => 0⟩ .nobuf 0 = .mapped 0
      ∧ ¬(0 + 16384 ≤ 4096) := by
  constructor
  · rfl
  · decide

/-- For an uncompressed blob header, `do_read_deliver` always yields
exactly `blobsize` bytes (zero-copy pointer or plain copy). -/
theorem do_read_deliver_length (cfg : Config) (s : BMState) (blobid : Nat)
    (record : RecordT) (flags : OpFlags) (bh : PBlobHeader) (blobsize : Nat)
    (hunc : bh.flags % 2 = 0) :
    (do_read_deliver cfg s blobid record flags bh blobsize).length
      = blobsize := by
  simp only [do_read_deliver, hunc, ne_eq, not_true_eq_false,
    not_false_eq_true, and_true, if_false, reduceIte]
  split_ifs <;> apply readBytes_length

/-- **C3 (corrected).** For partial reads on a blob whose header stores
logical size `S` (taken `uint32_t`): `do_read` fails with
`InvalidParameter` iff `partial_offset > S`; otherwise, when the
`uint32_t` sum `partial_offset + partial_size` (wrapping modulo `2^32`)
exceeds `S`, the effective read size and `record.partial_size` are clamped
to `S - partial_offset`, and otherwise the effective read size is
`partial_size`.  (The original claim's overflow-free reading of the
comparison is refuted by `C3_partial_read_counterexample`.)  The blob is
taken uncompressed so that the delivered byte count is observable. -/
theorem C3_partial_read_clamping (cfg : Config) (s : BMState) (blobid : Nat)
    (record : RecordT) (flags : OpFlags)
    (hp : flags.partialFlag = true)
    (hself : (readHeader s.file blobid).self = blobid)
    (hunc : (readHeader s.file blobid).flags % 2 = 0) :
    (do_read cfg s blobid record flags = .error .InvParameter
      ↔ record.partial_offset > u32 (readHeader s.file blobid).size)
    ∧ (record.partial_offset ≤ u32 (readHeader s.file blobid).size →
        u32 (record.partial_offset + record.partial_size)
          > u32 (readHeader s.file blobid).size →
        (do_read cfg s blobid record flags).toOption.map
            (fun o => (o.partial_size, o.data.map List.length))
          = some
            (u32sub (u32 (readHeader s.file blobid).size)
                record.partial_offset,
              if u32sub (u32 (readHeader s.file blobid).size)
                  record.partial_offset = 0
              then none
              else some (u32sub (u32 (readHeader s.file blobid).size)
                record.partial_offset)))
    ∧ (record.partial_offset ≤ u32 (readHeader s.file blobid).size →
        u32 (record.partial_offset + record.partial_size)
          ≤ u32 (readHeader s.file blobid).size →
        (do_read cfg s blobid record flags).toOption.map
            (fun o => (o.partial_size, o.data.map List.length))
          = some (record.partial_size,
              if record.partial_size = 0 then none
              else some record.partial_size)) := by
  have hread : do_read cfg s blobid record flags
      = do_read_checked cfg s blobid record flags (readHeader s.file blobid) :=
    by rw [do_read, if_neg (by simp [hself])]
  set bh := readHeader s.file blobid with hbh
  set S := u32 bh.size with hS
  refine ⟨⟨?_, ?_⟩, ?_, ?_⟩
  · intro herr
    by_contra hle
    rw [hread, do_read_checked, if_neg (by simp [hp]; omega)] at herr
    rw [do_read_tail] at herr
    split_ifs at herr <;> simp_all
  · intro hgt
    rw [hread, do_read_checked, if_pos (by exact ⟨hp, hgt⟩)]
  · intro hle hov
    rw [hread, do_read_checked, if_neg (by simp [hp]; omega)]
    have hclamp : clampPartial record flags S
        = (u32sub S record.partial_offset, u32sub S record.partial_offset) :=
      by rw [clampPartial, if_pos hp, if_pos hov]
    rw [hclamp]
    by_cases h0 : u32sub S record.partial_offset = 0
    · rw [do_read_tail, if_pos (by simpa using h0)]
      simp [h0, Except.toOption]
    · rw [do_read_tail, if_neg (by simpa using h0)]
      rw [if_neg (by simp [hp])]
      simp [h0, Except.toOption, do_read_deliver_length, hunc]
  · intro hle hov
    rw [hread, do_read_checked, if_neg (by simp [hp]; omega)]
    have hclamp : clampPartial record flags S
        = (record.partial_size, record.partial_size) := by
      rw [clampPartial, if_pos hp, if_neg (by omega)]
    rw [hclamp]
    by_cases h0 : record.partial_size = 0
    · rw [do_read_tail, if_pos (by simpa using h0)]
      simp [h0, Except.toOption]
    · rw [do_read_tail, if_neg (by simpa using h0)]
      rw [if_neg (by simp [hp])]
      simp [h0, Except.toOption, do_read_deliver_length, hunc]

/-- The file of the C3 examples: a valid uncompressed header at offset 40
with logical size 100 and allocated size 124. -/
def fileC3 : Nat → Nat :=
  writeList (fun _ => 0) 40 (encodeHeader ⟨40, 100, 124, 0⟩)

/-- The state of the C3 examples. -/
def sC3 : BMState :=
  { file := fileC3
    pageHeaders := fun _ => ⟨0, 0, []⟩
    last_blob_page := none
    next_page_address := 0
    deleted_runs := [] }

/-- **C3 witness.** A partial read of 20 bytes at offset 10 from the
100-byte blob: no clamping, and an offset of 200 fails `InvalidParameter`. -/
theorem C3_partial_read_clamping_witness :
    (do_read cfgEx sC3 40 ⟨[], 100, 10, 20, false⟩ flagsPart).toOption.map
        (fun o => (o.partial_size, o.data.map List.length))
      = some (20, some 20)
    ∧ do_read cfgEx sC3 40 ⟨[], 100, 200, 20, false⟩ flagsPart
      = .error .InvParameter := by
  constructor
  · have h := (C3_partial_read_clamping cfgEx sC3 40 ⟨[], 100, 10, 20, false⟩
      flagsPart rfl (by decide) (by decide)).2.2 (by decide) (by decide)
    simpa using h
  · exact (C3_partial_read_clamping cfgEx sC3 40 ⟨[], 100, 200, 20, false⟩
      flagsPart rfl (by decide) (by decide)).1.mpr (by decide)

/-- **C3 counterexample.** The claim reads the clamp condition as the
mathematical sum `partial_offset + partial_size > S`.  With `S = 100`,
`partial_offset = 50` and `partial_size = 2^32 - 10`, the mathematical sum
exceeds `S`, so the claim requires `record.partial_size` to be clamped to
`S - partial_offset = 50`; but the `uint32_t` sum wraps to `40 ≤ 100`, so
the source performs no clamping and keeps `partial_size = 2^32 - 10`. -/
theorem C3_partial_read_counterexample :
    (do_read cfgEx sC3 40 ⟨[], 100, 50, 4294967286, false⟩
        flagsPart).toOption.map (fun o => o.partial_size)
      = some 4294967286
    ∧ 50 + 4294967286 > 100
    ∧ (4294967286 : Nat) ≠ 100 - 50 := by
  refine ⟨by decide, by decide, by decide⟩

/-- **C10.** For every successful partial `do_read`
(`partial_offset ≤` the stored size), `record.size` is set to the blob's
full logical size from the header (its `uint32_t` value), not to the
number of bytes actually delivered — except that when the effective read
size is zero, both `record.data` and `record.size` are set to zero. -/
theorem C10_partial_read_full_size (cfg : Config) (s : BMState)
    (blobid : Nat) (record : RecordT) (flags : OpFlags)
    (hp : flags.partialFlag = true)
    (hself : (readHeader s.file blobid).self = blobid)
    (hoff : record.partial_offset ≤ u32 (readHeader s.file blobid).size) :
    ((clampPartial record flags (u32 (readHeader s.file blobid).size)).1 ≠ 0 →
      (do_read cfg s blobid record flags).toOption.map ReadOut.size
        = some (u32 (readHeader s.file blobid).size))
    ∧ ((clampPartial record flags (u32 (readHeader s.file blobid).size)).1
          = 0 →
      (do_read cfg s blobid record flags).toOption.map
          (fun o => (o.size, o.data))
        = some (0, none)) := by
  have hread : do_read cfg s blobid record flags
      = do_read_checked cfg s blobid record flags (readHeader s.file blobid) :=
    by rw [do_read, if_neg (by simp [hself])]
  rw [hread, do_read_checked, if_neg (by simp [hp]; omega)]
  constructor
  · intro hne
    rw [do_read_tail, if_neg hne, if_neg (by simp [hp])]
    simp [Except.toOption]
  · intro h0
    rw [do_read_tail, if_pos h0]
    simp [Except.toOption]

/-- **C10 witness.** Partial read at offset 10 of the 100-byte blob:
`record.size` is 100 (not 20); partial read at offset 100 with effective
size 0: `record.size` is 0 and `record.data` is null. -/
theorem C10_partial_read_full_size_witness :
    (do_read cfgEx sC3 40 ⟨[], 100, 10, 20, false⟩ flagsPart).toOption.map
        ReadOut.size = some 100
    ∧ (do_read cfgEx sC3 40 ⟨[], 100, 100, 50, false⟩ flagsPart).toOption.map
        (fun o => (o.size, o.data)) = some (0, none) := by
  constructor
  · have h := (C10_partial_read_full_size cfgEx sC3 40 ⟨[], 100, 10, 20, false⟩
      flagsPart rfl (by decide) (by decide)).1 (by decide)
    simpa using h
  · exact (C10_partial_read_full_size cfgEx sC3 40 ⟨[], 100, 100, 50, false⟩
      flagsPart rfl (by decide) (by decide)).2 (by decide)

/-- If no slot is large enough, the `alloc_from_freelist` scan fails. -/
theorem afl_loop_eq_none (size : Nat) (l : List (Nat × Nat))
    (h : ∀ e ∈ l, e.2 < size) : afl_loop size l = none := by
  induction l with
  | nil => rfl
  | cons x xs ih =>
      obtain ⟨o, sz⟩ := x
      have hx : sz < size := h (o, sz) (by simp)
      simp only [afl_loop]
      rw [if_neg (by omega), if_neg (by omega)]
      rw [ih (fun e he => h e (by simp [he]))]
      rfl

/-- The `alloc_from_freelist` scan stops at the first index whose slot
size is at least the request: an exact match is cleared, a larger slot
keeps its end and loses `size` bytes from its front. -/
theorem afl_loop_eq_some (size : Nat) (l : List (Nat × Nat)) (i : Nat)
    (hi : i < l.length)
    (hbefore : ∀ j, j < i → (l.getD j (0, 0)).2 < size)
    (hge : size ≤ (l.getD i (0, 0)).2) :
    afl_loop size l = some ((l.getD i (0, 0)).1,
      l.set i (if (l.getD i (0, 0)).2 = size then (0, 0)
        else (u32 ((l.getD i (0, 0)).1 + size), (l.getD i (0, 0)).2 - size)))
    := by
  induction l generalizing i with
  | nil => simp at hi
  | cons x xs ih =>
      obtain ⟨o, sz⟩ := x
      cases i with
      | zero =>
          have hge' : size ≤ sz := hge
          simp only [afl_loop]
          by_cases hx : sz = size
          · rw [if_pos hx]
            simp [hx]
          · rw [if_neg hx, if_pos (by omega)]
            simp [hx]
      | succ i' =>
          have hx : sz < size := hbefore 0 (by omega)
          simp only [List.getD_cons_succ] at hbefore hge ⊢
          simp only [afl_loop]
          rw [if_neg (by omega), if_neg (by omega)]
          rw [ih i' (by simpa using Nat.lt_of_succ_lt_succ hi)
            (fun j hj => hbefore (j + 1) (by omega)) hge]
          simp

/-- A successful scan preserves any end-of-slot bound below `2^32`. -/
theorem afl_loop_bounds (size B : Nat) (hB : B < 4294967296)
    (l : List (Nat × Nat)) (r : Nat) (l' : List (Nat × Nat))
    (hl : ∀ e ∈ l, e.1 + e.2 ≤ B)
    (h : afl_loop size l = some (r, l')) :
    ∀ e ∈ l', e.1 + e.2 ≤ B := by
  induction l generalizing l' with
  | nil => simp [afl_loop] at h
  | cons x xs ih =>
      obtain ⟨xo, xsz⟩ := x
      simp only [afl_loop] at h
      by_cases hx : xsz = size
      · rw [if_pos hx] at h
        simp only [Option.some.injEq, Prod.mk.injEq] at h
        obtain ⟨-, h2⟩ := h
        subst h2
        intro e he
        rcases List.mem_cons.mp he with h | h
        · simp [h]
        · exact hl e (by simp [h])
      · rw [if_neg hx] at h
        by_cases hx2 : xsz > size
        · rw [if_pos hx2] at h
          simp only [Option.some.injEq, Prod.mk.injEq] at h
          obtain ⟨-, h2⟩ := h
          subst h2
          intro e he
          rcases List.mem_cons.mp he with h | h
          · have hxb : xo + xsz ≤ B := hl (xo, xsz) (by simp)
            have hle : xo + size < 4294967296 := by omega
            subst h
            simp only [u32_eq_of_lt hle]
            omega
          · exact hl e (by simp [h])
        · rw [if_neg hx2] at h
          cases hrec : afl_loop size xs with
          | none =>
              rw [hrec] at h
              exact absurd h (by simp)
          | some p =>
              rw [hrec] at h
              simp only [Option.map_some', Option.some.injEq,
                Prod.mk.injEq] at h
              obtain ⟨h1, h2⟩ := h
              subst h2
              intro e he
              rcases List.mem_cons.mp he with h | h
              · exact h ▸ hl (xo, xsz) (by simp)
              · exact ih p.2 (fun e' he' => hl e' (by simp [he']))
                  (by rw [hrec, ← h1]) e h

/-- **C6 (corrected).** `alloc_from_freelist`: returns false without
changing the header when `num_pages > 1` or when no slot has
`size ≥ requested`.  The scan is first-fit on `size ≥ requested` in index
order: if the first such slot matches exactly, its offset is returned and
the slot is zeroed; if it is strictly larger, its old offset is returned
and the slot is shrunk from the front (`offset += size`, `size -= size`).
Any end-of-slot bound (such as the page-run size) below `2^32` is
preserved.  (The original claim's phrasing, which gives the first
exact-size slot priority over an earlier larger slot, is refuted by
`C6_alloc_from_freelist_counterexample`.) -/
theorem C6_alloc_from_freelist_spec (header : PBlobPageHeader) (size : Nat) :
    (header.num_pages > 1 → alloc_from_freelist header size = none)
    ∧ ((∀ e ∈ header.freelist, e.2 < size) →
        alloc_from_freelist header size = none)
    ∧ (header.num_pages ≤ 1 →
        ∀ i, i < header.freelist.length →
        (∀ j, j < i → (header.freelist.getD j (0, 0)).2 < size) →
        size ≤ (header.freelist.getD i (0, 0)).2 →
        alloc_from_freelist header size
          = some ((header.freelist.getD i (0, 0)).1,
              ⟨header.num_pages, header.free_bytes,
                header.freelist.set i
                  (if (header.freelist.getD i (0, 0)).2 = size then (0, 0)
                    else (u32 ((header.freelist.getD i (0, 0)).1 + size),
                      (header.freelist.getD i (0, 0)).2 - size))⟩))
    ∧ (∀ B, B < 4294967296 →
        (∀ e ∈ header.freelist, e.1 + e.2 ≤ B) →
        ∀ r h', alloc_from_freelist header size = some (r, h') →
        ∀ e ∈ h'.freelist, e.1 + e.2 ≤ B) := by
  refine ⟨?_, ?_, ?_, ?_⟩
  · intro h
    rw [alloc_from_freelist, if_pos h]
  · intro h
    unfold alloc_from_freelist
    rw [afl_loop_eq_none size _ h]
    simp
  · intro hnp i hi hbefore hge
    rw [alloc_from_freelist, if_neg (by omega),
      afl_loop_eq_some size _ i hi hbefore hge]
    rfl
  · intro B hB hl r h' hsome e he
    rw [alloc_from_freelist] at hsome
    by_cases hnp : header.num_pages > 1
    · rw [if_pos hnp] at hsome
      simp at hsome
    · rw [if_neg hnp] at hsome
      cases hrec : afl_loop size header.freelist with
      | none =>
          rw [hrec] at hsome
          exact absurd hsome (by simp)
      | some p =>
          rw [hrec] at hsome
          simp only [Option.map_some', Option.some.injEq,
            Prod.mk.injEq] at hsome
          have h2 : h'.freelist = p.2 := by rw [← hsome.2]
          exact afl_loop_bounds size B hB header.freelist p.1 p.2 hl
            (by rw [hrec]) e (h2 ▸ he)

/-- **C6 witness.** Header with slots `(10,3)` and `(20,5)`, request 5:
slot 0 is too small, slot 1 matches exactly, so offset 20 is returned and
slot 1 is cleared; with no slot of size ≥ 9, a request of 9 fails. -/
theorem C6_alloc_from_freelist_spec_witness :
    alloc_from_freelist ⟨1, 50, [(10, 3), (20, 5)]⟩ 5
        = some (20, ⟨1, 50, [(10, 3), (0, 0)]⟩)
      ∧ alloc_from_freelist ⟨1, 50, [(10, 3), (20, 5)]⟩ 9 = none := by
  constructor
  · have h := (C6_alloc_from_freelist_spec ⟨1, 50, [(10, 3), (20, 5)]⟩ 5).2.2.1
      (by decide) 1 (by decide) (by decide) (by decide)
    simpa using h
  · exact (C6_alloc_from_freelist_spec ⟨1, 50, [(10, 3), (20, 5)]⟩ 9).2.1
      (by decide)

/-- **C6 counterexample.** Slots `(10,8)` and `(20,5)`, request 5.  The
first slot whose size *equals* the request is slot 1, so the claim as
stated requires offset 20 to be returned and slot 1 to be zeroed.  The
source's single pass stops at slot 0 (size 8 > 5) first: it returns offset
10 and shrinks slot 0 to `(15,3)`, leaving slot 1 untouched. -/
theorem C6_alloc_from_freelist_counterexample :
    (alloc_from_freelist ⟨1, 50, [(10, 8), (20, 5)]⟩ 5).map
        (fun p => (p.1, p.2.freelist))
      = some (10, [(15, 3), (20, 5)])
    ∧ (10 : Nat) ≠ 20 := by
  constructor
  · rfl
  · decide

/-- The sorted-ranges loop of `check_integrity` accepts only lists whose
non-final entries stay within `bound` and do not overlap their successor
(`uint32_t` sums). -/
theorem ci_loop_ok_true (bound : Nat) (l : List (Nat × Nat))
    (h : ci_loop bound l = .ok true) :
    ∀ i, i + 1 < l.length →
      u32 ((l.getD i (0, 0)).1 + (l.getD i (0, 0)).2) ≤ bound
      ∧ u32 ((l.getD i (0, 0)).1 + (l.getD i (0, 0)).2)
          ≤ (l.getD (i + 1) (0, 0)).1 := by
  induction l with
  | nil => intro i hi; simp at hi
  | cons x xs ih =>
      cases xs with
      | nil => intro i hi; simp at hi
      | cons y rest =>
          rw [ci_loop] at h
          by_cases h1 : u32 (x.1 + x.2) > bound
          · rw [if_pos h1] at h
            simp at h
          · rw [if_neg h1] at h
            by_cases h2 : u32 (x.1 + x.2) > y.1
            · rw [if_pos h2] at h
              simp at h
            · rw [if_neg h2] at h
              intro i hi
              cases i with
              | zero =>
                  refine ⟨?_, ?_⟩ <;>
                    simp only [List.getD_cons_zero, List.getD_cons_succ] <;>
                    omega
              | succ i' =>
                  have := ih h i' (by simpa using Nat.lt_of_succ_lt_succ hi)
                  simpa using this

/-- **C7 (corrected).** For a single-page run header, a `check_integrity`
verdict of `true` guarantees: the `uint32_t` sum of the sizes of the
non-empty freelist slots *among the first `count - 1` entries* does not
exceed `free_bytes`, and in the offset-sorted list of those slots, every
slot except the last neither extends past `num_pages * page_size` nor
overlaps the slot after it.  (The original claim quantifies over *all*
non-empty slots; the source loop never inspects the last freelist entry,
see `C7_check_integrity_counterexample`.) -/
theorem C7_check_integrity_single_page (cfg : Config)
    (header : PBlobPageHeader) (hnp : header.num_pages = 1)
    (hok : check_integrity cfg header = .ok true) :
    u32 (((ci_slots header).map (fun e => e.2)).sum) ≤ header.free_bytes
    ∧ (∀ i, i + 1 < (sortRanges (ci_slots header)).length →
        u32 (((sortRanges (ci_slots header)).getD i (0, 0)).1
            + ((sortRanges (ci_slots header)).getD i (0, 0)).2)
          ≤ u32 (cfg.page_size * header.num_pages)
        ∧ u32 (((sortRanges (ci_slots header)).getD i (0, 0)).1
            + ((sortRanges (ci_slots header)).getD i (0, 0)).2)
          ≤ ((sortRanges (ci_slots header)).getD (i + 1) (0, 0)).1) := by
  rw [check_integrity] at hok
  split_ifs at hok with h1 h2 h3
  · simp at hok
  · omega
  · simp at hok
  · exact ⟨by omega, ci_loop_ok_true _ _ hok⟩

/-- **C7 witness.** A well-formed single-page header passes the check and
satisfies the guaranteed inequalities. -/
theorem C7_check_integrity_single_page_witness :
    u32 (((ci_slots ⟨1, 60, [(40, 20), (70, 30), (0, 0)]⟩).map
        (fun e => e.2)).sum) ≤ 60
    ∧ u32 (((sortRanges (ci_slots ⟨1, 60, [(40, 20), (70, 30), (0, 0)]⟩)).getD
          0 (0, 0)).1
        + ((sortRanges (ci_slots ⟨1, 60, [(40, 20), (70, 30), (0, 0)]⟩)).getD
          0 (0, 0)).2)
      ≤ u32 (cfgEx.page_size * 1) := by
  have h := C7_check_integrity_single_page cfgEx
    ⟨1, 60, [(40, 20), (70, 30), (0, 0)]⟩ (by decide) (by rfl)
  exact ⟨h.1, (h.2 0 (by decide)).1⟩

/-- **C7 counterexample.** The header `⟨1, 8, [(0,0), (40, 1048576)]⟩` has
one non-empty slot of size `2^20 > free_bytes = 8` that also extends far
past the page, yet `check_integrity` returns `true`: its collection loop
runs `i < count - 1 = 1` and never looks at the last slot. -/
theorem C7_check_integrity_counterexample :
    check_integrity cfgEx ⟨1, 8, [(0, 0), (40, 1048576)]⟩ = .ok true
    ∧ ¬(((((⟨1, 8, [(0, 0), (40, 1048576)]⟩ : PBlobPageHeader)).freelist.filter
          (fun e => e.2 ≠ 0)).map (fun e => e.2)).sum ≤ 8) := by
  constructor
  · rfl
  · decide

/-! ## Header read/write lemmas -/

theorem writeList_append (f : Nat → Nat) (a : Nat) (l1 l2 : List Nat) :
    writeList f a (l1 ++ l2) = writeList (writeList f a l1) (a + l1.length) l2
    := by
  induction l1 generalizing f a with
  | nil => simp [writeList]
  | cons x xs ih =>
      simp only [List.cons_append, writeList, List.length_cons]
      rw [show a + (xs.length + 1) = (a + 1) + xs.length from by omega]
      exact ih (Function.update f a x) (a + 1)

theorem readHeader_congr (f g : Nat → Nat) (a : Nat)
    (h : ∀ i, i < blobHeaderSize → f (a + i) = g (a + i)) :
    readHeader f a = readHeader g a := by
  have seg : ∀ off n, off + n ≤ blobHeaderSize →
      readBytes f (a + off) n = readBytes g (a + off) n := by
    intro off n hn
    apply readBytes_congr
    intro i hi
    have := h (off + i) (by omega)
    have harr : a + off + i = a + (off + i) := by omega
    rw [harr]
    exact this
  have h1 := seg 0 8 (by simp [blobHeaderSize])
  have h2 := seg 8 8 (by simp [blobHeaderSize])
  have h3 := seg 16 4 (by simp [blobHeaderSize])
  have h4 := seg 20 4 (by simp [blobHeaderSize])
  simp only [Nat.add_zero] at h1
  simp only [readHeader, h1, h2, h3, h4]

/-- A write whose region is disjoint from `[b, b + 24)` does not change
the header decoded at `b`. -/
theorem readHeader_writeList_out (f : Nat → Nat) (l : List Nat) (a b : Nat)
    (h : b + blobHeaderSize ≤ a ∨ a + l.length ≤ b) :
    readHeader (writeList f a l) b = readHeader f b := by
  apply readHeader_congr
  intro i hi
  rcases h with h | h
  · exact writeList_apply_out_lt f l a (b + i) (by omega)
  · exact writeList_apply_out_ge f l a (b + i) (by omega)

/-- Writing an encoded header followed by arbitrary payload bytes and
decoding at the write address recovers the header fields (modulo their
storage widths). -/
theorem readHeader_write_header_append (f : Nat → Nat) (h : PBlobHeader)
    (a : Nat) (rest : List Nat) :
    readHeader (writeList f a (encodeHeader h ++ rest)) a
      = { self := h.self % 2 ^ 64
          size := h.size % 2 ^ 64
          alloc_size := h.alloc_size % 2 ^ 32
          flags := h.flags % 2 ^ 32 } := by
  rw [writeList_append]
  rw [readHeader_writeList_out _ rest (a + (encodeHeader h).length) a
    (Or.inl (by simp [encodeHeader_length]))]
  exact readHeader_writeList_encodeHeader f h a

/-- **C5.** After `do_erase` adds the erased blob's `alloc_size` to
`free_bytes`: if `free_bytes = num_pages * page_size - kPageOverhead`,
the last-blob-page hint is cleared, the run of `num_pages` pages is
returned to the PageManager, and the page header is reset to its
initialized state; otherwise the blob's footprint
`(blob_id - page.address, alloc_size)` is handed to `add_to_freelist` and
the run is not returned.  The hypotheses keep the `uint32_t` quantities in
range so the claim's plain-arithmetic condition matches the source's. -/
theorem C5_erase_paths (cfg : Config) (s : BMState) (blobid : Nat)
    (hself : (readHeader s.file blobid).self = blobid)
    (hps : 0 < cfg.page_size) (hps32 : cfg.page_size ≤ 4294967296)
    (hfb : (s.pageHeaders (blobid - blobid % cfg.page_size)).free_bytes
        + (readHeader s.file blobid).alloc_size < 4294967296)
    (hnp32 : (s.pageHeaders (blobid - blobid % cfg.page_size)).num_pages
        * cfg.page_size < 4294967296)
    (hov : cfg.kPageOverhead
        ≤ (s.pageHeaders (blobid - blobid % cfg.page_size)).num_pages
          * cfg.page_size) :
    (do_erase cfg s blobid).1 = .ok ()
    ∧ ((s.pageHeaders (blobid - blobid % cfg.page_size)).free_bytes
          + (readHeader s.file blobid).alloc_size
        = (s.pageHeaders (blobid - blobid % cfg.page_size)).num_pages
            * cfg.page_size - cfg.kPageOverhead →
      (do_erase cfg s blobid).2.last_blob_page = none
      ∧ (do_erase cfg s blobid).2.deleted_runs
        = (blobid - blobid % cfg.page_size,
            (s.pageHeaders (blobid - blobid % cfg.page_size)).num_pages)
          :: s.deleted_runs
      ∧ (do_erase cfg s blobid).2.pageHeaders
          (blobid - blobid % cfg.page_size) = freshHeader cfg)
    ∧ ((s.pageHeaders (blobid - blobid % cfg.page_size)).free_bytes
          + (readHeader s.file blobid).alloc_size
        ≠ (s.pageHeaders (blobid - blobid % cfg.page_size)).num_pages
            * cfg.page_size - cfg.kPageOverhead →
      (do_erase cfg s blobid).2.deleted_runs = s.deleted_runs
      ∧ (do_erase cfg s blobid).2.last_blob_page = s.last_blob_page
      ∧ (do_erase cfg s blobid).2.pageHeaders
          (blobid - blobid % cfg.page_size)
        = add_to_freelist
            ⟨(s.pageHeaders (blobid - blobid % cfg.page_size)).num_pages,
              (s.pageHeaders (blobid - blobid % cfg.page_size)).free_bytes
                + (readHeader s.file blobid).alloc_size,
              (s.pageHeaders (blobid - blobid % cfg.page_size)).freelist⟩
            (blobid % cfg.page_size)
            (readHeader s.file blobid).alloc_size) := by
  have herase : do_erase cfg s blobid
      = (.ok (), do_erase_checked cfg s blobid (readHeader s.file blobid)) :=
    by rw [do_erase, if_neg (by simp [hself])]
  set pageaddr := blobid - blobid % cfg.page_size with hpa
  set h0 := s.pageHeaders pageaddr with hh0
  set bh := readHeader s.file blobid with hbh
  have hmodlt : blobid % cfg.page_size < cfg.page_size :=
    Nat.mod_lt _ hps
  have hmodle : blobid % cfg.page_size ≤ blobid := Nat.mod_le _ _
  have hsub : blobid - pageaddr = blobid % cfg.page_size := by omega
  have hu1 : u32 (h0.free_bytes + bh.alloc_size)
      = h0.free_bytes + bh.alloc_size := u32_eq_of_lt hfb
  have hu2 : u32sub (u32 (h0.num_pages * cfg.page_size)) cfg.kPageOverhead
      = h0.num_pages * cfg.page_size - cfg.kPageOverhead := by
    rw [u32_eq_of_lt hnp32]
    exact u32sub_eq_of_le hov hnp32
  have hu3 : u32 (blobid - pageaddr) = blobid % cfg.page_size := by
    rw [hsub]
    exact u32_eq_of_lt (by omega)
  have hchk : do_erase_checked cfg s blobid bh
      = if h0.free_bytes + bh.alloc_size
          = h0.num_pages * cfg.page_size - cfg.kPageOverhead then
        { s with
          pageHeaders := Function.update s.pageHeaders pageaddr
            (freshHeader cfg)
          last_blob_page := none
          deleted_runs := (pageaddr, h0.num_pages) :: s.deleted_runs }
      else
        { s with
          pageHeaders := Function.update s.pageHeaders pageaddr
            (add_to_freelist
              ⟨h0.num_pages, h0.free_bytes + bh.alloc_size, h0.freelist⟩
              (blobid % cfg.page_size) bh.alloc_size) } := by
    rw [do_erase_checked]
    rw [show ({ s.pageHeaders (blobid - blobid % cfg.page_size) with
        free_bytes := u32 ((s.pageHeaders
          (blobid - blobid % cfg.page_size)).free_bytes
            + (readHeader s.file blobid).alloc_size) } : PBlobPageHeader)
      = ⟨h0.num_pages, h0.free_bytes + bh.alloc_size, h0.freelist⟩ from
        by rw [hu1]]
    rw [hu2, hu3]
  refine ⟨by rw [herase], ?_, ?_⟩
  · intro hcond
    rw [herase, hchk, if_pos hcond]
    refine ⟨rfl, rfl, ?_⟩
    simp [Function.update_same]
  · intro hcond
    rw [herase, hchk, if_neg hcond]
    refine ⟨rfl, rfl, ?_⟩
    simp [Function.update_same]

/-- The header and freelist of the C5 witness: a single-page run whose
only blob (at offset 32, 27 bytes) is about to be erased. -/
def sC5 : BMState :=
  { file := writeList (fun _ => 0) 32 (encodeHeader ⟨32, 3, 27, 0⟩)
    pageHeaders := fun _ => ⟨1, 69, [(59, 69), (0, 0), (0, 0), (0, 0)]⟩
    last_blob_page := some 0
    next_page_address := 128
    deleted_runs := [] }

/-- **C5 witness.** Erasing the last blob of the run makes it fully free:
the hint is cleared, the run `(0, 1)` goes back to the PageManager, and
the header is reset. -/
theorem C5_erase_paths_witness :
    (do_erase cfgEx sC5 32).1 = .ok ()
    ∧ (do_erase cfgEx sC5 32).2.last_blob_page = none
    ∧ (do_erase cfgEx sC5 32).2.deleted_runs = [(0, 1)]
    ∧ (do_erase cfgEx sC5 32).2.pageHeaders 0 = freshHeader cfgEx := by
  have h := C5_erase_paths cfgEx sC5 32 (by decide) (by decide) (by decide)
    (by decide) (by decide) (by decide)
  have h2 := h.2.1 (by decide)
  exact ⟨h.1, h2.1, h2.2.1, h2.2.2⟩

/-- **C9 (implicit).** Whenever `do_overwrite` takes the in-place path
(`sizeof(header) + record.size` fits the old allocation), the new
`BlobHeader` is written with `flags = 0`: the compressed flag is cleared
and, for non-partial overwrites, the payload stored after the header is
the raw record bytes — even if a record compressor is configured
(`cfg.compressor` is arbitrary here) and the old blob's header had the
compressed bit set ((`readHeader s.file old_blobid).flags` is
arbitrary). -/
theorem C9_overwrite_inplace_uncompressed (cfg : Config) (s : BMState)
    (old_blobid : Nat) (record : RecordT) (flags : OpFlags)
    (hself : (readHeader s.file old_blobid).self = old_blobid)
    (hfit : u32 (blobHeaderSize + record.size)
      ≤ (readHeader s.file old_blobid).alloc_size)
    (hlen : record.data.length = record.size) :
    (do_overwrite cfg s old_blobid record flags).1 = .ok old_blobid
    ∧ (readHeader (do_overwrite cfg s old_blobid record flags).2.file
        old_blobid).flags = 0
    ∧ (flags.partialFlag = false →
        readBytes (do_overwrite cfg s old_blobid record flags).2.file
            (old_blobid + blobHeaderSize) record.size
          = record.data) := by
  have hover : do_overwrite cfg s old_blobid record flags
      = (.ok (readHeader s.file old_blobid).self,
          do_overwrite_inplace cfg s old_blobid record flags
            (readHeader s.file old_blobid)) := by
    rw [do_overwrite, if_neg (by simp [hself]), if_pos hfit]
  set obh := readHeader s.file old_blobid with hobh
  have htake : record.data.take record.size = record.data :=
    List.take_of_length_le (le_of_eq hlen)
  have hfile : (do_overwrite_inplace cfg s old_blobid record flags obh).file
      = (if flags.partialFlag = true ∧ record.partial_offset ≠ 0 then
          writeList
            (writeList s.file obh.self
              (encodeHeader ⟨obh.self, record.size,
                u32 (blobHeaderSize + record.size), 0⟩))
            (obh.self + blobHeaderSize + record.partial_offset)
            (record.data.take record.partial_size)
        else
          writeList s.file obh.self
            (encodeHeader ⟨obh.self, record.size,
                u32 (blobHeaderSize + record.size), 0⟩
              ++ record.data.take
                (if flags.partialFlag then record.partial_size
                  else record.size))) := by
    rw [do_overwrite_inplace]
  refine ⟨by rw [hover, hself], ?_, ?_⟩
  · rw [hover]
    rw [hfile]
    by_cases hpo : flags.partialFlag = true ∧ record.partial_offset ≠ 0
    · rw [if_pos hpo]
      rw [readHeader_writeList_out _ _ _ _ (Or.inl (by omega))]
      rw [hself, readHeader_writeList_encodeHeader]
      simp
    · rw [if_neg hpo, hself, readHeader_write_header_append]
      simp
  · intro hnp
    rw [hover, hfile, if_neg (by simp [hnp]), hself, if_neg (by simp [hnp]),
      htake]
    rw [writeList_append]
    have harr : old_blobid + (encodeHeader ⟨old_blobid, record.size,
        u32 (blobHeaderSize + record.size), 0⟩).length
        = old_blobid + blobHeaderSize := by
      rw [encodeHeader_length]
    rw [harr]
    have := readBytes_writeList_self
      (writeList s.file old_blobid
        (encodeHeader ⟨old_blobid, record.size,
          u32 (blobHeaderSize + record.size), 0⟩))
      record.data (old_blobid + blobHeaderSize)
    rw [hlen] at this
    exact this

/-- **C9 witness.** Overwriting the 100-byte blob at offset 40 with 2
bytes keeps the id, stores `flags = 0` and the raw payload `[7, 8]`. -/
theorem C9_overwrite_inplace_uncompressed_witness :
    (do_overwrite cfgEx sC3 40 ⟨[7, 8], 2, 0, 0, false⟩ flagsPlain).1
      = .ok 40
    ∧ (readHeader (do_overwrite cfgEx sC3 40 ⟨[7, 8], 2, 0, 0, false⟩
        flagsPlain).2.file 40).flags = 0
    ∧ readBytes (do_overwrite cfgEx sC3 40 ⟨[7, 8], 2, 0, 0, false⟩
        flagsPlain).2.file (40 + blobHeaderSize) 2 = [7, 8] := by
  have h := C9_overwrite_inplace_uncompressed cfgEx sC3 40
    ⟨[7, 8], 2, 0, 0, false⟩ flagsPlain (by decide) (by decide) (by decide)
  exact ⟨h.1, h.2.1, h.2.2 rfl⟩

/-! ## Allocation-placement lemmas (used by C2 and C1) -/

/-- A successful freelist scan returns the original offset of one of the
freelist slots. -/
theorem afl_loop_offset_mem (size : Nat) (l : List (Nat × Nat)) (r : Nat)
    (l' : List (Nat × Nat)) (h : afl_loop size l = some (r, l')) :
    ∃ sz, (r, sz) ∈ l := by
  induction l generalizing l' with
  | nil => simp [afl_loop] at h
  | cons x xs ih =>
      obtain ⟨o, sz⟩ := x
      simp only [afl_loop] at h
      split_ifs at h with h1 h2
      · simp only [Option.some.injEq, Prod.mk.injEq] at h
        exact ⟨sz, by simp [← h.1]⟩
      · simp only [Option.some.injEq, Prod.mk.injEq] at h
        exact ⟨sz, by simp [← h.1]⟩
      · cases hrec : afl_loop size xs with
        | none =>
            rw [hrec] at h
            exact absurd h (by simp)
        | some p =>
            rw [hrec] at h
            simp only [Option.map_some', Option.some.injEq,
              Prod.mk.injEq] at h
            obtain ⟨sz', hmem⟩ := ih p.2 (by rw [hrec, ← h.1])
            exact ⟨sz', by simp [hmem]⟩

/-- The placement step never touches the file bytes. -/
theorem allocPlace_file (cfg : Config) (s : BMState) (a c : Nat) :
    (allocPlace cfg s a c).1.file = s.file := by
  unfold allocPlace
  cases hl : s.last_blob_page with
  | none => simp [hl]
  | some pg =>
      cases hf : alloc_from_freelist (s.pageHeaders pg) a with
      | none => simp [hl, hf]
      | some p =>
          by_cases hz : p.1 + pg ≠ 0 <;> simp [hl, hf, hz]

/-- The placement step leaves `deleted_runs` alone. -/
theorem allocPlace_deleted (cfg : Config) (s : BMState) (a c : Nat) :
    (allocPlace cfg s a c).1.deleted_runs = s.deleted_runs := by
  unfold allocPlace
  cases hl : s.last_blob_page with
  | none => simp [hl]
  | some pg =>
      cases hf : alloc_from_freelist (s.pageHeaders pg) a with
      | none => simp [hl, hf]
      | some p =>
          by_cases hz : p.1 + pg ≠ 0 <;> simp [hl, hf, hz]

/-- A successful `alloc_from_freelist` returns the original offset of one
of the header's freelist slots. -/
theorem alloc_from_freelist_offset_mem (header : PBlobPageHeader)
    (size r : Nat) (h' : PBlobPageHeader)
    (h : alloc_from_freelist header size = some (r, h')) :
    ∃ sz, (r, sz) ∈ header.freelist := by
  rw [alloc_from_freelist] at h
  split_ifs at h
  cases hrec : afl_loop size header.freelist with
  | none =>
      rw [hrec] at h
      exact absurd h (by simp)
  | some q =>
      rw [hrec] at h
      simp only [Option.map_some', Option.some.injEq, Prod.mk.injEq] at h
      exact h.1 ▸ afl_loop_offset_mem size _ q.1 q.2 (by rw [hrec])

/-- The address chosen by the placement step: either the page-relative
offset of one of the last blob page's freelist slots, or the fresh run's
start plus `kPageOverhead`. -/
theorem allocPlace_addr (cfg : Config) (s : BMState) (a c : Nat) :
    (∃ pg e, s.last_blob_page = some pg
      ∧ e ∈ (s.pageHeaders pg).freelist
      ∧ (allocPlace cfg s a c).2.2.1 = pg + e.1)
    ∨ (allocPlace cfg s a c).2.2.1
        = s.next_page_address + cfg.kPageOverhead := by
  unfold allocPlace
  cases hl : s.last_blob_page with
  | none => right; simp [hl]
  | some pg =>
      cases hf : alloc_from_freelist (s.pageHeaders pg) a with
      | none => right; simp [hl, hf]
      | some p =>
          by_cases hz : p.1 + pg ≠ 0
          · left
            obtain ⟨sz, hmem⟩ := alloc_from_freelist_offset_mem
              (s.pageHeaders pg) a p.1 p.2 (by rw [hf])
            refine ⟨pg, (p.1, sz), rfl, hmem, ?_⟩
            simp only [hl, hf]
            rw [if_pos (show ¬(p.1 + pg = 0) from hz)]
            simp [Nat.add_comm]
          · right
            simp [hl, hf, hz]

/-- The adopted record size never exceeds the original `record->size`. -/
theorem allocCompress_le (cfg : Config) (record : RecordT)
    (flags : OpFlags) : (allocCompress cfg record flags).2 ≤ record.size := by
  unfold allocCompress
  cases cfg.compressor with
  | none => exact le_refl _
  | some comp =>
      split_ifs with h1
      · simp
      · dsimp only
        split_ifs with h2
        · simpa using le_of_lt h2
        · simp

/-- The whole write step of an allocation stays inside
`[address, address + blobHeaderSize + record.size + partial_offset +
partial_size)`; reading a header region disjoint from that window is
unaffected. -/
theorem allocWrite_readHeader_out (cfg : Config) (f : Nat → Nat)
    (address : Nat) (record : RecordT) (flags : OpFlags)
    (bh : PBlobHeader) (record_data : List Nat) (record_size : Nat)
    (hrs : record_size ≤ record.size) (hsz : record.size < 4294967296)
    (b : Nat)
    (hd : address + (blobHeaderSize + record.size + record.partial_offset
          + record.partial_size) ≤ b
        ∨ b + blobHeaderSize ≤ address) :
    readHeader (allocWrite cfg f address record flags bh record_data
        record_size) b
      = readHeader f b := by
  have hout : ∀ (g : Nat → Nat) (l : List Nat) (c : Nat),
      address ≤ c →
      c + l.length ≤ address + (blobHeaderSize + record.size
        + record.partial_offset + record.partial_size) →
      readHeader (writeList g c l) b = readHeader g b := by
    intro g l c h1 h2
    apply readHeader_writeList_out
    rcases hd with hd | hd
    · exact Or.inr (by omega)
    · exact Or.inl (by omega)
  have htrail : u32 (record.partial_offset + record.partial_size)
        < record.size →
      u32sub record.size (u32 (record.partial_offset + record.partial_size))
        ≤ record.size := by
    intro h
    rw [u32sub_eq_of_le (le_of_lt h) hsz]
    omega
  have htk1 := List.length_take_le record.partial_size record.data
  have htk2 := List.length_take_le
    (if flags.partialFlag = true then record.partial_size else record_size)
    record_data
  unfold allocWrite
  dsimp only
  by_cases hpo : flags.partialFlag = true ∧ record.partial_offset > 0
  · rw [if_pos hpo]
    by_cases htr : flags.partialFlag = true
        ∧ u32 (record.partial_offset + record.partial_size) < record.size
    · rw [if_pos htr]
      dsimp only
      rw [hout _ _ _ (by omega)
        (by simp only [List.length_replicate]; have := htrail htr.2; omega)]
      rw [hout _ _ _ (by omega) (by omega)]
      rw [hout _ _ _ (by omega) (by simp only [List.length_replicate]; omega)]
      rw [hout _ _ _ (by omega) (by simp only [encodeHeader_length]; omega)]
    · rw [if_neg htr]
      dsimp only
      rw [hout _ _ _ (by omega) (by omega)]
      rw [hout _ _ _ (by omega) (by simp only [List.length_replicate]; omega)]
      rw [hout _ _ _ (by omega) (by simp only [encodeHeader_length]; omega)]
  · rw [if_neg hpo]
    by_cases htr : flags.partialFlag = true
        ∧ u32 (record.partial_offset + record.partial_size) < record.size
    · rw [if_pos htr]
      dsimp only
      rw [hout _ _ _ (by omega)
        (by
          have := htrail htr.2
          simp only [List.length_replicate, htr.1, reduceIte]
          omega)]
      rw [hout _ _ _ (by omega)
        (by
          simp only [List.length_append, encodeHeader_length, htr.1,
            reduceIte] at htk2 ⊢
          omega)]
    · rw [if_neg htr]
      dsimp only
      rw [hout _ _ _ (by omega)
        (by
          simp only [List.length_append, encodeHeader_length]
          cases hpf : flags.partialFlag with
          | false =>
              simp only [hpf, Bool.false_eq_true, reduceIte] at htk2 ⊢
              omega
          | true =>
              simp only [hpf, reduceIte] at htk2 ⊢
              omega)]

/-- `do_allocate` neither disturbs a blob header whose 24-byte region is
disjoint from the write window of the new blob, nor places the new blob
at such an address: under the freshness hypotheses (all freelist slots of
the last blob page and all fresh pages lie safely away from `b`), the
header at `b` decodes identically afterwards, and the returned blob-id is
separated from `b`. -/
theorem do_allocate_preserves_header (cfg : Config) (s : BMState)
    (record : RecordT) (flags : OpFlags) (b : Nat)
    (hsz : record.size < 4294967296)
    (hdisj : ∀ pg, s.last_blob_page = some pg →
      ∀ e ∈ (s.pageHeaders pg).freelist,
        pg + e.1 + (blobHeaderSize + record.size + record.partial_offset
          + record.partial_size) ≤ b
        ∨ b + blobHeaderSize ≤ pg + e.1)
    (hnext : b + blobHeaderSize ≤ s.next_page_address) :
    readHeader (do_allocate cfg s record flags).2.file b
      = readHeader s.file b
    ∧ ((do_allocate cfg s record flags).1
          + (blobHeaderSize + record.size + record.partial_offset
            + record.partial_size) ≤ b
        ∨ b + blobHeaderSize ≤ (do_allocate cfg s record flags).1) := by
  have haddr := allocPlace_addr cfg s
    (u32 (blobHeaderSize + (allocCompress cfg record flags).2))
    (if flags.partialFlag = true then 0
      else cfg.crc_fn (record.data.take record.size))
  have hfile0 := allocPlace_file cfg s
    (u32 (blobHeaderSize + (allocCompress cfg record flags).2))
    (if flags.partialFlag = true then 0
      else cfg.crc_fn (record.data.take record.size))
  have hid : (do_allocate cfg s record flags).1
      = (allocPlace cfg s
          (u32 (blobHeaderSize + (allocCompress cfg record flags).2))
          (if flags.partialFlag = true then 0
            else cfg.crc_fn (record.data.take record.size))).2.2.1 := rfl
  have hsep : (do_allocate cfg s record flags).1
        + (blobHeaderSize + record.size + record.partial_offset
          + record.partial_size) ≤ b
      ∨ b + blobHeaderSize ≤ (do_allocate cfg s record flags).1 := by
    rw [hid]
    rcases haddr with ⟨pg, e, hlbp, hmem, haddr⟩ | haddr
    · rw [haddr]
      exact hdisj pg hlbp e hmem
    · rw [haddr]
      right
      omega
  refine ⟨?_, hsep⟩
  have hfe : (do_allocate cfg s record flags).2.file
      = allocWrite cfg s.file (do_allocate cfg s record flags).1 record
          flags
          ⟨(do_allocate cfg s record flags).1, record.size,
            u32 (blobHeaderSize + (allocCompress cfg record flags).2),
            if record.size ≠ (allocCompress cfg record flags).2
              then kIsCompressed else 0⟩
          (allocCompress cfg record flags).1
          (allocCompress cfg record flags).2 := by
    conv_lhs => rw [do_allocate]
    dsimp only
    rw [hfile0, hid]
  rw [hfe]
  exact allocWrite_readHeader_out cfg s.file _ record flags _ _ _
    (allocCompress_le cfg record flags) hsz b
    (by rcases hsep with h | h
        · exact Or.inl h
        · exact Or.inr h)

/-- **C2 (corrected).** `do_overwrite` returns the old blob-id if and only
if the `uint32_t` value `sizeof(BlobHeader) + record.size` (wrapping
modulo `2^32`) is at most the old header's `alloc_size`; otherwise it
allocates a fresh blob, erases the old one, and returns the new blob-id,
which differs from the old id.  The freshness hypotheses say that the
last blob page's free slots and the fresh page area lie safely away from
the old blob's header, which is how the page manager maintains them.
(The claim's overflow-free reading of the size comparison is refuted by
`C2_overwrite_counterexample`.) -/
theorem C2_overwrite_id (cfg : Config) (s : BMState) (old_blobid : Nat)
    (record : RecordT) (flags : OpFlags)
    (hself : (readHeader s.file old_blobid).self = old_blobid)
    (hsz : record.size < 4294967296)
    (hdisj : ∀ pg, s.last_blob_page = some pg →
      ∀ e ∈ (s.pageHeaders pg).freelist,
        pg + e.1 + (blobHeaderSize + record.size + record.partial_offset
          + record.partial_size) ≤ old_blobid
        ∨ old_blobid + blobHeaderSize ≤ pg + e.1)
    (hnext : old_blobid + blobHeaderSize ≤ s.next_page_address) :
    ((do_overwrite cfg s old_blobid record flags).1 = .ok old_blobid
      ↔ u32 (blobHeaderSize + record.size)
          ≤ (readHeader s.file old_blobid).alloc_size)
    ∧ (¬ u32 (blobHeaderSize + record.size)
          ≤ (readHeader s.file old_blobid).alloc_size →
        (do_overwrite cfg s old_blobid record flags).1
            = .ok (do_allocate cfg s record flags).1
        ∧ (do_allocate cfg s record flags).1 ≠ old_blobid
        ∧ (do_overwrite cfg s old_blobid record flags).2
            = (do_erase cfg (do_allocate cfg s record flags).2
                old_blobid).2) := by
  have hpres := do_allocate_preserves_header cfg s record flags old_blobid
    hsz hdisj hnext
  have hne : (do_allocate cfg s record flags).1 ≠ old_blobid := by
    have h24 : blobHeaderSize = 24 := rfl
    rcases hpres.2 with h | h <;> omega
  by_cases hfit : u32 (blobHeaderSize + record.size)
      ≤ (readHeader s.file old_blobid).alloc_size
  · have hov : do_overwrite cfg s old_blobid record flags
        = (.ok (readHeader s.file old_blobid).self,
            do_overwrite_inplace cfg s old_blobid record flags
              (readHeader s.file old_blobid)) := by
      rw [do_overwrite, if_neg (by simp [hself]), if_pos hfit]
    refine ⟨?_, fun h => absurd hfit h⟩
    rw [hov, hself]
    simp [hfit]
  · have hov1 : (do_overwrite cfg s old_blobid record flags).1
        = (do_erase cfg (do_allocate cfg s record flags).2 old_blobid).1.map
            (fun _ => (do_allocate cfg s record flags).1) := by
      rw [do_overwrite, if_neg (by simp [hself]), if_neg hfit]
    have hov2 : (do_overwrite cfg s old_blobid record flags).2
        = (do_erase cfg (do_allocate cfg s record flags).2 old_blobid).2 := by
      rw [do_overwrite, if_neg (by simp [hself]), if_neg hfit]
    have hera : do_erase cfg (do_allocate cfg s record flags).2 old_blobid
        = (.ok (), do_erase_checked cfg (do_allocate cfg s record flags).2
            old_blobid
            (readHeader (do_allocate cfg s record flags).2.file
              old_blobid)) := by
      rw [do_erase, if_neg (by simp [hpres.1, hself])]
    refine ⟨⟨?_, fun h => absurd h hfit⟩, ?_⟩
    · intro h1
      rw [hov1, hera] at h1
      exact absurd (by simpa [Except.map] using h1) hne
    · intro _
      refine ⟨?_, hne, hov2⟩
      rw [hov1, hera]
      rfl

/-- The state of the C2 examples: a valid header at offset 40 with
`alloc_size = 30`, no last-blob-page hint, fresh pages from 1024 on. -/
def sC2 : BMState :=
  { file := writeList (fun _ => 0) 40 (encodeHeader ⟨40, 5, 30, 0⟩)
    pageHeaders := fun _ => ⟨0, 0, []⟩
    last_blob_page := none
    next_page_address := 1024
    deleted_runs := [] }

/-- **C2 witness.** Overwriting the blob (alloc_size 30) with 2 bytes
(24 + 2 ≤ 30) keeps id 40; overwriting with 100 bytes relocates: the
result is the freshly allocated id, different from 40. -/
theorem C2_overwrite_id_witness :
    (do_overwrite cfgEx sC2 40 ⟨[1, 2], 2, 0, 0, false⟩ flagsPlain).1
      = .ok 40
    ∧ (do_overwrite cfgEx sC2 40
          ⟨List.replicate 100 1, 100, 0, 0, false⟩ flagsPlain).1
        = .ok (do_allocate cfgEx sC2
            ⟨List.replicate 100 1, 100, 0, 0, false⟩ flagsPlain).1
    ∧ (do_allocate cfgEx sC2
        ⟨List.replicate 100 1, 100, 0, 0, false⟩ flagsPlain).1 ≠ 40 := by
  constructor
  · exact (C2_overwrite_id cfgEx sC2 40 ⟨[1, 2], 2, 0, 0, false⟩ flagsPlain
      (by decide) (by decide) (by intro pg h; simp [sC2] at h)
      (by decide)).1.mpr (by decide)
  · have h := (C2_overwrite_id cfgEx sC2 40
      ⟨List.replicate 100 1, 100, 0, 0, false⟩ flagsPlain
      (by decide) (by decide) (by intro pg h; simp [sC2] at h)
      (by decide)).2 (by decide)
    exact ⟨h.1, h.2.1⟩

/-- **C2 counterexample.** With `record.size = 2^32 - 1`, the mathematical
value `sizeof(BlobHeader) + record.size` vastly exceeds the old
`alloc_size = 30`, so the claim requires relocation to a fresh id; but the
`uint32_t` expression wraps to `23 ≤ 30` and the source overwrites in
place, returning the old id 40. -/
theorem C2_overwrite_counterexample :
    (do_overwrite cfgEx sC2 40 ⟨[], 4294967295, 0, 0, false⟩ flagsPlain).1
      = .ok 40
    ∧ blobHeaderSize + 4294967295
        > (readHeader sC2.file 40).alloc_size := by
  constructor
  · rfl
  · decide

/-! ## Allocate-then-read roundtrip (C1): supporting lemmas -/

@[simp] theorem set_freelist_offset_num_pages (h : PBlobPageHeader)
    (i v : Nat) : (h.set_freelist_offset i v).num_pages = h.num_pages := rfl

@[simp] theorem set_freelist_size_num_pages (h : PBlobPageHeader)
    (i v : Nat) : (h.set_freelist_size i v).num_pages = h.num_pages := rfl

/-- A successful `afl_loop` scan returns the original offset of a slot
whose size covers the request. -/
theorem afl_loop_offset_mem_ge (size : Nat) (l : List (Nat × Nat)) (r : Nat)
    (l' : List (Nat × Nat)) (h : afl_loop size l = some (r, l')) :
    ∃ sz, (r, sz) ∈ l ∧ size ≤ sz := by
  induction l generalizing l' with
  | nil => simp [afl_loop] at h
  | cons x xs ih =>
      obtain ⟨o, sz⟩ := x
      simp only [afl_loop] at h
      split_ifs at h with h1 h2
      · simp only [Option.some.injEq, Prod.mk.injEq] at h
        exact ⟨sz, by simp [← h.1], h1.ge⟩
      · simp only [Option.some.injEq, Prod.mk.injEq] at h
        exact ⟨sz, by simp [← h.1], le_of_lt h2⟩
      · cases hrec : afl_loop size xs with
        | none =>
            rw [hrec] at h
            exact absurd h (by simp)
        | some p =>
            rw [hrec] at h
            simp only [Option.map_some', Option.some.injEq,
              Prod.mk.injEq] at h
            obtain ⟨sz', hmem, hge⟩ := ih p.2 (by rw [hrec, ← h.1])
            exact ⟨sz', by simp [hmem], hge⟩

/-- A successful `alloc_from_freelist` happens on a run of at most one
page, keeps `num_pages`, and the chosen slot's size covers the request. -/
theorem alloc_from_freelist_success (header : PBlobPageHeader)
    (size r : Nat) (h' : PBlobPageHeader)
    (h : alloc_from_freelist header size = some (r, h')) :
    header.num_pages ≤ 1 ∧ h'.num_pages = header.num_pages
      ∧ ∃ sz, (r, sz) ∈ header.freelist ∧ size ≤ sz := by
  rw [alloc_from_freelist] at h
  split_ifs at h with h1
  refine ⟨by omega, ?_, ?_⟩
  · cases hrec : afl_loop size header.freelist with
    | none =>
        rw [hrec] at h
        exact absurd h (by simp)
    | some q =>
        rw [hrec] at h
        simp only [Option.map_some', Option.some.injEq, Prod.mk.injEq] at h
        rw [← h.2]
  · cases hrec : afl_loop size header.freelist with
    | none =>
        rw [hrec] at h
        exact absurd h (by simp)
    | some q =>
        rw [hrec] at h
        simp only [Option.map_some', Option.some.injEq, Prod.mk.injEq] at h
        exact h.1 ▸ afl_loop_offset_mem_ge size _ q.1 q.2 (by rw [hrec])

/-- When `record->data` holds exactly `record->size` bytes, the adopted
data of the compression step holds exactly the adopted size many bytes. -/
theorem allocCompress_length (cfg : Config) (record : RecordT)
    (flags : OpFlags) (hlen : record.data.length = record.size) :
    (allocCompress cfg record flags).1.length
      = (allocCompress cfg record flags).2 := by
  unfold allocCompress
  cases cfg.compressor with
  | none => exact hlen
  | some comp =>
      split_ifs with h1
      · exact hlen
      · dsimp only
        split_ifs with h2
        · rfl
        · exact hlen

/-- Case analysis of the compression step: either the record is adopted
unchanged, or a configured compressor's strictly shorter output is
adopted. -/
theorem allocCompress_cases (cfg : Config) (record : RecordT)
    (flags : OpFlags) :
    allocCompress cfg record flags = (record.data, record.size)
    ∨ ∃ c, cfg.compressor = some c
        ∧ (allocCompress cfg record flags).1
            = c.compress (record.data.take record.size)
        ∧ (allocCompress cfg record flags).2
            = (allocCompress cfg record flags).1.length
        ∧ (allocCompress cfg record flags).2 < record.size := by
  unfold allocCompress
  cases hc : cfg.compressor with
  | none => left; rfl
  | some comp =>
      split_ifs with h1
      · left; rfl
      · dsimp only
        split_ifs with h2
        · right
          exact ⟨comp, rfl, rfl, rfl, h2⟩
        · left; rfl

/-- For a non-partial allocation the write step is one consecutive write
of the encoded header followed by the payload bytes. -/
theorem allocWrite_nonpartial (cfg : Config) (f : Nat → Nat) (address : Nat)
    (record : RecordT) (flags : OpFlags) (bh : PBlobHeader)
    (record_data : List Nat) (record_size : Nat)
    (hp : flags.partialFlag = false) :
    allocWrite cfg f address record flags bh record_data record_size
      = writeList f address
          (encodeHeader bh ++ record_data.take record_size) := by
  unfold allocWrite
  simp only [hp, Bool.false_eq_true, false_and, reduceIte]

/-- Start-of-page arithmetic: a page-aligned run start plus an in-page
offset is brought back to the run start by `blobid - blobid % page_size`. -/
theorem page_start_eq (ps pg r : Nat) (hps : 0 < ps) (hpg : pg % ps = 0)
    (hr : r < ps) : (pg + r) - (pg + r) % ps = pg := by
  have h1 : (pg + r) % ps = r := by
    rw [Nat.add_mod, hpg]
    simp [Nat.mod_eq_of_lt hr]
  omega

/-- An uncompressed non-partial read delivers the raw bytes behind the
header, on the zero-copy path and on the plain-copy path alike. -/
theorem do_read_deliver_uncompressed (cfg : Config) (s : BMState)
    (blobid : Nat) (record : RecordT) (flags : OpFlags) (bh : PBlobHeader)
    (blobsize : Nat) (hf2 : bh.flags % 2 = 0)
    (hp : flags.partialFlag = false) :
    do_read_deliver cfg s blobid record flags bh blobsize
      = readBytes s.file (blobid + blobHeaderSize) blobsize := by
  unfold do_read_deliver
  simp only [hp, Bool.false_eq_true, reduceIte, Nat.add_zero]
  split_ifs with h1 h2
  · rfl
  · exact absurd hf2 h2
  · rfl

/-- A compressed read feeds the stored bytes through the configured
compressor's `decompress`. -/
theorem do_read_deliver_compressed_eq (cfg : Config) (s : BMState)
    (blobid : Nat) (record : RecordT) (flags : OpFlags) (bh : PBlobHeader)
    (blobsize : Nat) (c : Compressor) (hf2 : bh.flags % 2 ≠ 0)
    (hc : cfg.compressor = some c) :
    do_read_deliver cfg s blobid record flags bh blobsize
      = c.decompress
          (readBytes s.file (blobid + blobHeaderSize)
            (u32sub bh.alloc_size blobHeaderSize)) blobsize := by
  unfold do_read_deliver
  dsimp only
  rw [if_neg (by simp [hf2]), if_pos hf2, hc]

/-- In the fresh-run header built by the placement step, a multi-page run
with CRC32 enabled carries the CRC (32-bit truncated) in freelist slot 0. -/
theorem fresh_run_crc_slot (cfg : Config) (c np : Nat) (cond2 : Prop)
    [inst : Decidable cond2] (h2alt : PBlobPageHeader)
    (hfl : 0 < cfg.kFreelistLength)
    (hcen : cfg.crc32_enabled = true)
    (hnp : (if np > 1 ∧ cfg.crc32_enabled then
          (if cond2 then h2alt
            else ({ num_pages := np
                    free_bytes := u32sub (u32 (np * cfg.page_size))
                      cfg.kPageOverhead
                    freelist := List.replicate cfg.kFreelistLength (0, 0) }
              : PBlobPageHeader)).set_freelist_offset 0 c
        else
          (if cond2 then h2alt
            else ({ num_pages := np
                    free_bytes := u32sub (u32 (np * cfg.page_size))
                      cfg.kPageOverhead
                    freelist := List.replicate cfg.kFreelistLength (0, 0) }
              : PBlobPageHeader))).num_pages > 1)
    (hcond2 : cond2 → np = 1) (halt : h2alt.num_pages = np) :
    (if np > 1 ∧ cfg.crc32_enabled then
        (if cond2 then h2alt
          else ({ num_pages := np
                  free_bytes := u32sub (u32 (np * cfg.page_size))
                    cfg.kPageOverhead
                  freelist := List.replicate cfg.kFreelistLength (0, 0) }
            : PBlobPageHeader)).set_freelist_offset 0 c
      else
        (if cond2 then h2alt
          else ({ num_pages := np
                  free_bytes := u32sub (u32 (np * cfg.page_size))
                    cfg.kPageOverhead
                  freelist := List.replicate cfg.kFreelistLength (0, 0) }
            : PBlobPageHeader))).get_freelist_offset 0 = u32 c := by
  split_ifs at hnp ⊢ with hA hB hC
  · exact absurd (hcond2 hB) (by obtain ⟨h1, -⟩ := hA; omega)
  · cases hk : cfg.kFreelistLength with
    | zero => rw [hk] at hfl; omega
    | succ k =>
        simp [PBlobPageHeader.get_freelist_offset,
          PBlobPageHeader.set_freelist_offset, hk, List.replicate_succ]
  · rw [halt] at hnp
    exact absurd ⟨hnp, hcen⟩ hA
  · exact absurd ⟨hnp, hcen⟩ hA

/-- Full case analysis of the placement step `allocPlace`: either the
blob was carved from the last blob page's freelist (a run of at most one
page, from a slot covering the request), or it sits `kPageOverhead` bytes
into a fresh run starting at `next_page_address`; in the fresh case a
multi-page run with CRC32 enabled has the CRC stored in freelist slot 0
of the run header. -/
theorem allocPlace_cases (cfg : Config) (s : BMState) (a c : Nat)
    (hfl : 0 < cfg.kFreelistLength) :
    (∃ pg e, s.last_blob_page = some pg
        ∧ e ∈ (s.pageHeaders pg).freelist ∧ a ≤ e.2
        ∧ (allocPlace cfg s a c).2.1 = pg
        ∧ (allocPlace cfg s a c).2.2.1 = pg + e.1
        ∧ (allocPlace cfg s a c).2.2.2.num_pages ≤ 1)
    ∨ ((allocPlace cfg s a c).2.1 = s.next_page_address
        ∧ (allocPlace cfg s a c).2.2.1
            = s.next_page_address + cfg.kPageOverhead
        ∧ (cfg.crc32_enabled = true →
            (allocPlace cfg s a c).2.2.2.num_pages > 1 →
            (allocPlace cfg s a c).2.2.2.get_freelist_offset 0 = u32 c)) := by
  unfold allocPlace
  cases hl : s.last_blob_page with
  | none =>
      right
      dsimp only
      rw [if_neg (show ¬((0 : Nat) ≠ 0) from by simp)]
      exact ⟨rfl, rfl, fun hcen hnp =>
        fresh_run_crc_slot cfg c _ _ _ hfl hcen hnp (fun h => h.1) rfl⟩
  | some pg =>
      dsimp only
      cases hf : alloc_from_freelist (s.pageHeaders pg) a with
      | none =>
          right
          dsimp only
          rw [if_neg (show ¬((0 : Nat) ≠ 0) from by simp)]
          exact ⟨rfl, rfl, fun hcen hnp =>
            fresh_run_crc_slot cfg c _ _ _ hfl hcen hnp (fun h => h.1) rfl⟩
      | some p =>
          by_cases hz : p.1 + pg ≠ 0
          · left
            obtain ⟨hle1, hnpeq, sz, hmem, hge⟩ :=
              alloc_from_freelist_success (s.pageHeaders pg) a p.1 p.2
                (by rw [hf])
            refine ⟨pg, (p.1, sz), rfl, hmem, hge, ?_, ?_, ?_⟩
            · dsimp only
              rw [if_pos hz]
            · dsimp only
              rw [if_pos hz]
              exact Nat.add_comm p.1 pg
            · dsimp only
              rw [if_pos hz]
              show ((Function.update s.pageHeaders pg p.2) pg).num_pages ≤ 1
              rw [Function.update_same, hnpeq]
              exact hle1
          · right
            dsimp only
            rw [if_neg hz]
            exact ⟨rfl, rfl, fun hcen hnp =>
              fresh_run_crc_slot cfg c _ _ _ hfl hcen hnp (fun h => h.1) rfl⟩

/-- The read half of the allocate/read roundtrip, abstracted over the
facts established by the allocation: the header at `blobid` decodes to
the blob's own id and logical size, the delivery step hands back the
original bytes, and a multi-page run's freelist slot 0 carries the CRC
of those bytes. -/
theorem do_read_core (cfg : Config) (S : BMState) (blobid : Nat)
    (record record2 : RecordT) (rflags : OpFlags) (asz flg : Nat)
    (hrp : rflags.partialFlag = false)
    (hh : readHeader S.file blobid = ⟨blobid, record.size, asz, flg⟩)
    (hsz32 : record.size < 4294967296)
    (hlen : record.data.length = record.size)
    (hdel : record.size ≠ 0 →
      do_read_deliver cfg S blobid record2 rflags
        ⟨blobid, record.size, asz, flg⟩ record.size = record.data)
    (hcrc : (S.pageHeaders (blobid - blobid % cfg.page_size)).num_pages > 1 →
      cfg.crc32_enabled = true →
      (S.pageHeaders (blobid - blobid % cfg.page_size)).get_freelist_offset 0
        = u32 (cfg.crc_fn record.data)) :
    (do_read cfg S blobid record2 rflags).toOption.map
      (fun o => (o.size, o.data.getD []))
      = some (record.size, record.data) := by
  have htake : record.data.take record.size = record.data := by
    rw [← hlen, List.take_length]
  have hread : do_read cfg S blobid record2 rflags
      = do_read_checked cfg S blobid record2 rflags
          ⟨blobid, record.size, asz, flg⟩ := by
    rw [do_read, hh, if_neg (by simp)]
  have hS : u32 record.size = record.size := u32_eq_of_lt hsz32
  rw [hread, do_read_checked]
  dsimp only
  rw [if_neg (by simp [hrp]), hS]
  have hclamp : clampPartial record2 rflags record.size
      = (record.size, record2.partial_size) := by
    rw [clampPartial, if_neg (by simp [hrp])]
  rw [hclamp]
  by_cases h0 : record.size = 0
  · rw [do_read_tail, if_pos (by simpa using h0)]
    have hnil : record.data = [] := List.eq_nil_of_length_eq_zero (by omega)
    simp [Except.toOption, h0, hnil]
  · rw [do_read_tail, if_neg (by simpa using h0)]
    dsimp only
    rw [hdel h0]
    by_cases hcen : (S.pageHeaders
          (blobid - blobid % cfg.page_size)).num_pages > 1
        ∧ cfg.crc32_enabled = true
    · rw [if_pos (show _ ∧ _ ∧ _ from ⟨hcen.1, hcen.2, by simp [hrp]⟩)]
      rw [if_neg (by rw [htake]; exact not_not_intro (hcrc hcen.1 hcen.2))]
      simp [Except.toOption]
    · rw [if_neg (fun h => hcen ⟨h.1, h.2.1⟩)]
      simp [Except.toOption]

/-- Reading `n` payload bytes from right behind a freshly written header
recovers a prefix of the payload. -/
theorem readBytes_payload (f : Nat → Nat) (bh : PBlobHeader)
    (payload : List Nat) (a n : Nat) (hn : n ≤ payload.length) :
    readBytes (writeList f a (encodeHeader bh ++ payload))
        (a + blobHeaderSize) n
      = payload.take n := by
  have hext := readBytes_writeList_extract f (encodeHeader bh ++ payload) a
    blobHeaderSize n (by simp [encodeHeader_length]; omega)
  rw [hext, List.drop_left' (encodeHeader_length bh)]

/-- **C1 (confirmed).** A record allocated by `do_allocate` and read back
at once through `do_read` with the returned blob-id (same configuration,
no `HAM_PARTIAL` on either side) reports the original `record->size` and
delivers the original payload bytes — also through a compression
round-trip.  The hypotheses state the PageManager/page-layout invariants
(page-aligned runs below `2^64` with in-page freelist slots, a positive
freelist capacity, page overhead smaller than a page) and that the
configured compressor, if any, round-trips on the record. -/
theorem C1_allocate_read_roundtrip (cfg : Config) (s : BMState)
    (record record2 : RecordT) (aflags rflags : OpFlags)
    (hap : aflags.partialFlag = false)
    (hrp : rflags.partialFlag = false)
    (hlen : record.data.length = record.size)
    (hsz : blobHeaderSize + record.size < 4294967296)
    (hps : 0 < cfg.page_size)
    (hpov : cfg.kPageOverhead < cfg.page_size)
    (hfl : 0 < cfg.kFreelistLength)
    (hal : s.next_page_address % cfg.page_size = 0)
    (hnb : s.next_page_address + cfg.page_size ≤ 18446744073709551616)
    (hlbp : ∀ pg, s.last_blob_page = some pg →
      pg % cfg.page_size = 0
      ∧ pg + cfg.page_size ≤ 18446744073709551616
      ∧ ∀ e ∈ (s.pageHeaders pg).freelist, e.1 + e.2 ≤ cfg.page_size)
    (hround : ∀ c, cfg.compressor = some c →
      c.decompress (c.compress record.data) record.data.length
        = record.data) :
    (do_read cfg (do_allocate cfg s record aflags).2
        (do_allocate cfg s record aflags).1 record2 rflags).toOption.map
      (fun o => (o.size, o.data.getD []))
      = some (record.size, record.data) := by
  have h24 : blobHeaderSize = 24 := rfl
  have hp64 : (2 : Nat) ^ 64 = 18446744073709551616 := by norm_num
  have hp32 : (2 : Nat) ^ 32 = 4294967296 := by norm_num
  have hcle := allocCompress_le cfg record aflags
  have hclen := allocCompress_length cfg record aflags hlen
  have hcomp := allocCompress_cases cfg record aflags
  have htake : record.data.take record.size = record.data := by
    rw [← hlen, List.take_length]
  have hA : (u32 (blobHeaderSize + (allocCompress cfg record aflags).2))
      = blobHeaderSize + (allocCompress cfg record aflags).2 :=
    u32_eq_of_lt (by omega)
  have hplace := allocPlace_cases cfg s
    (u32 (blobHeaderSize + (allocCompress cfg record aflags).2))
    (if aflags.partialFlag = true then 0
        else cfg.crc_fn (record.data.take record.size)) hfl
  have hPfile := allocPlace_file cfg s
    (u32 (blobHeaderSize + (allocCompress cfg record aflags).2))
    (if aflags.partialFlag = true then 0
        else cfg.crc_fn (record.data.take record.size))
  have hid : (do_allocate cfg s record aflags).1
      = (allocPlace cfg s
      (u32 (blobHeaderSize + (allocCompress cfg record aflags).2))
      (if aflags.partialFlag = true then 0
        else cfg.crc_fn (record.data.take record.size))).2.2.1 := rfl
  have hfe : (do_allocate cfg s record aflags).2.file
      = allocWrite cfg s.file (do_allocate cfg s record aflags).1 record
          aflags
          ⟨(do_allocate cfg s record aflags).1, record.size,
            (u32 (blobHeaderSize + (allocCompress cfg record aflags).2)),
            (if record.size ≠ (allocCompress cfg record aflags).2 then kIsCompressed
        else 0)⟩
          (allocCompress cfg record aflags).1
          (allocCompress cfg record aflags).2 := by
    conv_lhs => rw [do_allocate]
    dsimp only
    rw [hPfile, hid]
  have hwrite : (do_allocate cfg s record aflags).2.file
      = writeList s.file (do_allocate cfg s record aflags).1
          (encodeHeader (⟨(do_allocate cfg s record aflags).1, record.size,
      (u32 (blobHeaderSize + (allocCompress cfg record aflags).2)),
      (if record.size ≠ (allocCompress cfg record aflags).2 then kIsCompressed
        else 0)⟩ : PBlobHeader)
            ++ (allocCompress cfg record aflags).1.take (allocCompress cfg record aflags).2) := by
    rw [hfe]
    exact allocWrite_nonpartial cfg s.file _ record aflags _ _ _ hap
  have hph : (do_allocate cfg s record aflags).2.pageHeaders
      = Function.update
          (allocPlace cfg s
      (u32 (blobHeaderSize + (allocCompress cfg record aflags).2))
      (if aflags.partialFlag = true then 0
        else cfg.crc_fn (record.data.take record.size))).1.pageHeaders
          (allocPlace cfg s
      (u32 (blobHeaderSize + (allocCompress cfg record aflags).2))
      (if aflags.partialFlag = true then 0
        else cfg.crc_fn (record.data.take record.size))).2.1
          { (allocPlace cfg s
      (u32 (blobHeaderSize + (allocCompress cfg record aflags).2))
      (if aflags.partialFlag = true then 0
        else cfg.crc_fn (record.data.take record.size))).2.2.2 with
              free_bytes := u32sub
                (allocPlace cfg s
      (u32 (blobHeaderSize + (allocCompress cfg record aflags).2))
      (if aflags.partialFlag = true then 0
        else cfg.crc_fn (record.data.take record.size))).2.2.2.free_bytes
                (u32 (blobHeaderSize + (allocCompress cfg record aflags).2)) } := rfl
  have hCval : (if aflags.partialFlag = true then 0
        else cfg.crc_fn (record.data.take record.size))
      = cfg.crc_fn record.data := by
    simp [hap, htake]
  have hkey : (do_allocate cfg s record aflags).1 < 18446744073709551616
      ∧ (do_allocate cfg s record aflags).1
          - (do_allocate cfg s record aflags).1 % cfg.page_size
          = (allocPlace cfg s
      (u32 (blobHeaderSize + (allocCompress cfg record aflags).2))
      (if aflags.partialFlag = true then 0
        else cfg.crc_fn (record.data.take record.size))).2.1
      ∧ ((allocPlace cfg s
      (u32 (blobHeaderSize + (allocCompress cfg record aflags).2))
      (if aflags.partialFlag = true then 0
        else cfg.crc_fn (record.data.take record.size))).2.2.2.num_pages > 1 →
          cfg.crc32_enabled = true →
          (allocPlace cfg s
      (u32 (blobHeaderSize + (allocCompress cfg record aflags).2))
      (if aflags.partialFlag = true then 0
        else cfg.crc_fn (record.data.take record.size))).2.2.2.get_freelist_offset 0
            = u32 (if aflags.partialFlag = true then 0
        else cfg.crc_fn (record.data.take record.size))) := by
    rcases hplace with ⟨pg, e, hlpg, hmem, hge, hpgeq, haddr, hnp1⟩ |
      ⟨hpgeq, haddr, hcrcf⟩
    · obtain ⟨halg, hbnd, hsl⟩ := hlbp pg hlpg
      have hee := hsl e hmem
      have he2 : 0 < e.2 := by rw [hA] at hge; omega
      have he1 : e.1 < cfg.page_size := by omega
      refine ⟨?_, ?_, ?_⟩
      · rw [hid, haddr]; omega
      · rw [hid, haddr, hpgeq]
        exact page_start_eq cfg.page_size pg e.1 hps halg he1
      · intro hn _
        exact absurd hn (by omega)
    · refine ⟨?_, ?_, fun hn hcen => hcrcf hcen hn⟩
      · rw [hid, haddr]; omega
      · rw [hid, haddr, hpgeq]
        exact page_start_eq cfg.page_size s.next_page_address
          cfg.kPageOverhead hps hal hpov
  have hfin : (do_allocate cfg s record aflags).2.pageHeaders
      ((do_allocate cfg s record aflags).1
        - (do_allocate cfg s record aflags).1 % cfg.page_size)
      = { (allocPlace cfg s
      (u32 (blobHeaderSize + (allocCompress cfg record aflags).2))
      (if aflags.partialFlag = true then 0
        else cfg.crc_fn (record.data.take record.size))).2.2.2 with
          free_bytes := u32sub
            (allocPlace cfg s
      (u32 (blobHeaderSize + (allocCompress cfg record aflags).2))
      (if aflags.partialFlag = true then 0
        else cfg.crc_fn (record.data.take record.size))).2.2.2.free_bytes
            (u32 (blobHeaderSize + (allocCompress cfg record aflags).2)) } := by
    rw [hph, hkey.2.1]
    exact Function.update_same _ _ _
  have hcrcc : ((do_allocate cfg s record aflags).2.pageHeaders
        ((do_allocate cfg s record aflags).1
          - (do_allocate cfg s record aflags).1 % cfg.page_size)).num_pages > 1 →
      cfg.crc32_enabled = true →
      ((do_allocate cfg s record aflags).2.pageHeaders
        ((do_allocate cfg s record aflags).1
          - (do_allocate cfg s record aflags).1 % cfg.page_size)).get_freelist_offset 0
        = u32 (cfg.crc_fn record.data) := by
    intro hn hcen
    rw [hfin] at hn
    have hn2 : (allocPlace cfg s
      (u32 (blobHeaderSize + (allocCompress cfg record aflags).2))
      (if aflags.partialFlag = true then 0
        else cfg.crc_fn (record.data.take record.size))).2.2.2.num_pages > 1 := hn
    have hres := hkey.2.2 hn2 hcen
    rw [hfin]
    show (allocPlace cfg s
      (u32 (blobHeaderSize + (allocCompress cfg record aflags).2))
      (if aflags.partialFlag = true then 0
        else cfg.crc_fn (record.data.take record.size))).2.2.2.get_freelist_offset 0
      = u32 (cfg.crc_fn record.data)
    rw [hres, hCval]
  have hh : readHeader (do_allocate cfg s record aflags).2.file
        (do_allocate cfg s record aflags).1
      = ⟨(do_allocate cfg s record aflags).1, record.size,
          (u32 (blobHeaderSize + (allocCompress cfg record aflags).2)),
          (if record.size ≠ (allocCompress cfg record aflags).2 then kIsCompressed
        else 0)⟩ := by
    rw [hwrite, readHeader_write_header_append]
    dsimp only
    have e1 : (do_allocate cfg s record aflags).1 % 2 ^ 64
        = (do_allocate cfg s record aflags).1 :=
      Nat.mod_eq_of_lt (by rw [hp64]; exact hkey.1)
    have e2 : record.size % 2 ^ 64 = record.size :=
      Nat.mod_eq_of_lt (by rw [hp64]; omega)
    have e3 : (u32 (blobHeaderSize + (allocCompress cfg record aflags).2)) % 2 ^ 32
        = (u32 (blobHeaderSize + (allocCompress cfg record aflags).2)) := by
      rw [hA]
      exact Nat.mod_eq_of_lt (by rw [hp32]; omega)
    have e4 : (if record.size ≠ (allocCompress cfg record aflags).2 then kIsCompressed
        else 0) % 2 ^ 32
        = (if record.size ≠ (allocCompress cfg record aflags).2 then kIsCompressed
        else 0) :=
      Nat.mod_eq_of_lt
        (by rw [hp32]; split_ifs <;> norm_num [kIsCompressed])
    rw [e1, e2, e3, e4]
  have hdel : record.size ≠ 0 →
      do_read_deliver cfg (do_allocate cfg s record aflags).2
        (do_allocate cfg s record aflags).1 record2 rflags
        ⟨(do_allocate cfg s record aflags).1, record.size,
          (u32 (blobHeaderSize + (allocCompress cfg record aflags).2)),
          (if record.size ≠ (allocCompress cfg record aflags).2 then kIsCompressed
        else 0)⟩ record.size
        = record.data := by
    intro h0
    rcases hcomp with huc | ⟨c, hcs, hc1, hc2, hlt⟩
    · have hrs : (allocCompress cfg record aflags).2 = record.size := by rw [huc]
      have hrd : (allocCompress cfg record aflags).1 = record.data := by rw [huc]
      have hflg : (if record.size ≠ (allocCompress cfg record aflags).2 then kIsCompressed
        else 0) = 0 := by
        rw [hrs]
        simp
      rw [do_read_deliver_uncompressed cfg (do_allocate cfg s record aflags).2
        (do_allocate cfg s record aflags).1 record2 rflags
        ⟨(do_allocate cfg s record aflags).1, record.size,
          (u32 (blobHeaderSize + (allocCompress cfg record aflags).2)),
          (if record.size ≠ (allocCompress cfg record aflags).2 then kIsCompressed
        else 0)⟩ record.size
        (by simp [hflg]) hrp]
      rw [hwrite, readBytes_payload s.file _ _
        (do_allocate cfg s record aflags).1 record.size
        (by rw [hrd, hrs, htake]; omega)]
      rw [hrd, hrs, htake, htake]
    · have hflg : (if record.size ≠ (allocCompress cfg record aflags).2 then kIsCompressed
        else 0) = kIsCompressed := by
        rw [if_pos (by omega)]
      rw [do_read_deliver_compressed_eq cfg (do_allocate cfg s record aflags).2
        (do_allocate cfg s record aflags).1 record2 rflags
        ⟨(do_allocate cfg s record aflags).1, record.size,
          (u32 (blobHeaderSize + (allocCompress cfg record aflags).2)),
          (if record.size ≠ (allocCompress cfg record aflags).2 then kIsCompressed
        else 0)⟩ record.size c
        (by dsimp only; rw [hflg]; decide) hcs]
      dsimp only
      have hsub : u32sub (u32 (blobHeaderSize + (allocCompress cfg record aflags).2))
          blobHeaderSize = (allocCompress cfg record aflags).2 := by
        rw [hA, u32sub_eq_of_le (by omega) (by omega)]
        omega
      rw [hsub, hwrite, readBytes_payload s.file _ _
        (do_allocate cfg s record aflags).1 (allocCompress cfg record aflags).2
        (by simp [List.length_take, hclen])]
      have htk2 : (allocCompress cfg record aflags).1.take (allocCompress cfg record aflags).2
          = (allocCompress cfg record aflags).1 := by
        rw [← hclen, List.take_length]
      rw [htk2, htk2, hc1, htake, ← hlen]
      exact hround c hcs
  exact do_read_core cfg (do_allocate cfg s record aflags).2
    (do_allocate cfg s record aflags).1 record record2 rflags
    (u32 (blobHeaderSize + (allocCompress cfg record aflags).2))
    (if record.size ≠ (allocCompress cfg record aflags).2 then kIsCompressed
        else 0) hrp hh (by omega) hlen hdel hcrcc

/-- **C1 witness.** Allocating the record `[5, 6, 7]` (size 3) in the
empty example state and reading the returned blob-id back yields size 3
and the original bytes. -/
theorem C1_allocate_read_roundtrip_witness :
    (do_read cfgEx
        (do_allocate cfgEx sEmpty ⟨[5, 6, 7], 3, 0, 0, false⟩ flagsPlain).2
        (do_allocate cfgEx sEmpty ⟨[5, 6, 7], 3, 0, 0, false⟩ flagsPlain).1
        ⟨[], 0, 0, 0, false⟩ flagsPlain).toOption.map
      (fun o => (o.size, o.data.getD []))
      = some (3, [5, 6, 7]) :=
  C1_allocate_read_roundtrip cfgEx sEmpty ⟨[5, 6, 7], 3, 0, 0, false⟩
    ⟨[], 0, 0, 0, false⟩ flagsPlain flagsPlain rfl rfl (by decide)
    (by decide) (by decide) (by decide) (by decide) (by decide) (by decide)
    (by intro pg h; simp [sEmpty] at h)
    (by intro c h; simp [cfgEx] at h)

end Upscaledb
